import Mathlib

/-!
Shallow embedding of the snapshot synchronization engine of the
jamf_change_monitor repository, together with theorems settling the
frozen claims about its specification.

The engine under verification lives in:
  * modules/categories.py  (single-file-unit module, paginated fetch)
  * modules/scripts.py     (two file-units per identity, paginated fetch)
  * modules/computergroups.py (secondary per-identity detail fetch)
  * jamf_change_monitor.py (main: thread collection, commit ordering,
    removal step)
  * simple_multitasking.py (ThreadFunction with a class-level
    counting semaphore of capacity 25)

File contents are modeled as Lean Strings (the bytes of the file), the
snapshot store as the directory listing: a list of named files in
iteration order.  Python ints appearing as object identities are modeled
as Nat (the remote source serves canonical decimal ids).  Python
exceptions are modeled with Except.
-/

namespace JamfMonitor

/-- Python exception classes that the embedded code can raise. -/
inductive PyErr where
  | typeError
  | valueError
  | jsonDecodeError
  | keyError
  deriving DecidableEq, Repr

/-- Embedding of the test done by re.match of a digit pattern against a file
name in the removal scans (categories.py line 65, scripts.py line 66):
re.match anchors at the start of the string, so the test succeeds exactly
when the name is nonempty and begins with a decimal digit.  Digits are
modeled as ASCII decimal digits. -/
def startsWithDigit (s : String) : Bool :=
  match s.toList with
  | [] => false
  | c :: _ => c.isDigit

/-- Embedding of pathlib.PurePath.stem: the file name with its last suffix
removed, where a suffix is a dot at an index strictly between 0 and the
last position, together with what follows it. -/
def pyStem (s : String) : String :=
  let rev := s.toList.reverse
  let afterRev := rev.takeWhile (fun c => c ≠ '.')
  match rev.dropWhile (fun c => c ≠ '.') with
  | [] => s
  | _ :: stemRev =>
    if stemRev = [] then s
    else if afterRev = [] then s
    else String.mk stemRev.reverse

/-- Embedding of Python int() applied to a file stem, for the canonical
inputs arising here: a nonempty all-digit string parses to its decimal
value and anything else raises ValueError (modeled as none). -/
def pyIntNat (s : String) : Option Nat :=
  let cs := s.toList
  if cs.isEmpty then none
  else if cs.all Char.isDigit then
    some (cs.foldl (fun acc c => acc * 10 + (c.toNat - 48)) 0)
  else none

/-- Worker for the decimal rendering of a nonnegative int: digits most
significant first, with fuel strictly above the value, so that the
recursion is structural and closed renderings reduce. -/
def pyStrCore : Nat → Nat → List Char
  | 0, _ => []
  | fuel + 1, n =>
    if n < 10 then [Nat.digitChar n]
    else pyStrCore fuel (n / 10) ++ [Nat.digitChar (n % 10)]

/-- Decimal digits of a nonnegative int, most significant first. -/
def pyStrAux (n : Nat) : List Char := pyStrCore (n + 1) n

/-- Embedding of Python str() on a nonnegative int, as
str(data\_object of key id) produces it. -/
def pyStr (n : Nat) : String := String.mk (pyStrAux n)

/-- A fetched object after normalization by the module: its identity (the
integer value of the id served by the API), its display name as computed
by get\_name, and its canonical content, which stands for the bytes of
json.dumps applied to clean\_data of the object with indent 4 and
sort\_keys False. -/
structure FetchedRec where
  id : Nat
  name : String
  canon : String
  deriving DecidableEq, Repr

/-- One file of the snapshot store: its name within the module directory
and its content bytes. -/
structure SFile where
  name : String
  content : String
  deriving DecidableEq, Repr

/-- A change entry as appended to the per-module log dict: display name,
the id field as logged (a decimal string for add and diff entries, the
file stem for remove entries), and the file path handed to git. -/
structure ChangeEntry where
  name : String
  id : String
  file : String
  deriving DecidableEq, Repr

/-- The per-module log dict with its three lists. -/
structure ModuleLog where
  diff : List ChangeEntry
  add : List ChangeEntry
  remove : List ChangeEntry
  deriving DecidableEq, Repr

/-- Path of a file inside a module directory, as produced by
module\_path.joinpath(name).as\_posix() with the repository prefix
elided (it is a run-wide constant and plays no role in any claim). -/
def fpath (module fname : String) : String := module ++ ("/") ++ fname

/-- Look up a file of the store by name, as Path.exists plus open do. -/
def lookupFile (store : List SFile) (fname : String) : Option SFile :=
  store.find? (fun f => f.name == fname)

/-- Whole-file replace of an existing file (open r+, seek 0, truncate,
write). -/
def updateFile (store : List SFile) (fname content : String) : List SFile :=
  store.map (fun f => if f.name == fname then { f with content := content } else f)

/-- Creation of a fresh file (open w on a path that does not exist); the
new file appears at the end of the directory listing order. -/
def createFile (store : List SFile) (fname content : String) : List SFile :=
  store ++ [{ name := fname, content := content }]

/-- Deletion of a file by name (git rm, or Path.unlink). -/
def eraseFile (store : List SFile) (fname : String) : List SFile :=
  store.filter (fun f => f.name != fname)

/-- Embedding of the comprehension guarding the removal scans, e.g.
categories.py line 66: all evaluates a list built from the fetched
objects, keeping False for each object whose int id equals int(file.stem);
when the fetched list is empty the stem is never parsed, otherwise
int(file.stem) raises ValueError on a non-numeric stem. -/
def noFetchedMatch (objIds : List Nat) (stem : String) : Except PyErr Bool :=
  match objIds with
  | [] => Except.ok true
  | _ =>
    match pyIntNat stem with
    | none => Except.error PyErr.valueError
    | some n => Except.ok (objIds.all (fun i => i != n))

/-- Embedding of the removal scan shared line for line by categories.py
lines 63 to 73 and scripts.py lines 64 to 77: iterate the module
directory in listing order, consider only names beginning with a digit,
and emit one remove entry for each file whose stem matches no fetched id.
The display name of a removed file is read back from the file; the two
modules extract it differently (categories lets a JSON decode error
escape, scripts catches it and falls back to the stem), so the extraction
is a parameter. -/
def removeScan (nameOf : SFile → Except PyErr String) (module : String)
    (objIds : List Nat) (store : List SFile) : Except PyErr (List ChangeEntry) :=
  match store with
  | [] => Except.ok []
  | f :: rest =>
    if startsWithDigit f.name then
      match noFetchedMatch objIds (pyStem f.name) with
      | Except.error e => Except.error e
      | Except.ok true => do
        let nm ← nameOf f
        let tail ← removeScan nameOf module objIds rest
        Except.ok ({ name := nm, id := pyStem f.name, file := fpath module f.name } :: tail)
      | Except.ok false => removeScan nameOf module objIds rest
    else removeScan nameOf module objIds rest

/-- Embedding of the save loop of categories.py lines 76 to 100: for each
fetched object in fetch order, if its file exists compare the stored bytes
with the canonical content and rewrite plus log a diff entry exactly when
they differ; otherwise create the file and log an add entry. -/
def categoriesSave (objs : List FetchedRec) (store : List SFile) :
    List ChangeEntry × List ChangeEntry × List SFile :=
  match objs with
  | [] => ([], [], store)
  | o :: rest =>
    let fname := pyStr o.id
    let entry : ChangeEntry :=
      { name := o.name, id := pyStr o.id, file := fpath ("categories") fname }
    match lookupFile store fname with
    | some f =>
      if f.content ≠ o.canon then
        let out := categoriesSave rest (updateFile store fname o.canon)
        (entry :: out.1, out.2.1, out.2.2)
      else
        categoriesSave rest store
    | none =>
      let out := categoriesSave rest (createFile store fname o.canon)
      (out.1, entry :: out.2.1, out.2.2)

/-- Embedding of the body of categories.get after a successful fetch
(lines 62 to 100): removal scan over the directory listing, then the save
loop, returning the module log and the updated store. -/
def categoriesRun (loadName : String → Except PyErr String)
    (objs : List FetchedRec) (store : List SFile) :
    Except PyErr (ModuleLog × List SFile) :=
  match removeScan (fun f => loadName f.content) ("categories") (objs.map (fun o => o.id)) store with
  | Except.error e => Except.error e
  | Except.ok removes =>
    let out := categoriesSave objs store
    Except.ok ({ diff := out.1, add := out.2.1, remove := removes }, out.2.2)

/-- Payload of an APIResponse as seen by the pagination loop: on a
successful request the parsed JSON dict carrying totalCount and the
results page; on a non-success HTTP status the raw response text; on a
requests exception None (jamf.py get\_data). -/
inductive ApiData (α : Type) where
  | json (totalCount : Nat) (results : List α)
  | text (body : String)
  | nothing
  deriving DecidableEq, Repr

/-- The APIResponse fields the modules consult. -/
structure ApiResponse (α : Type) where
  success : Bool
  data : ApiData α
  deriving DecidableEq, Repr

/-- Result of running the pagination loop of categories.py lines 54 to 60
and scripts.py lines 55 to 61 for a bounded number of iterations:
looping means the bound was exhausted with the loop condition still true,
raised models the TypeError from subscripting totalCount on a data field
that is not a dict, done carries the accumulated results and the last
response (whose success field the module then checks). -/
inductive FetchOutcome (α : Type) where
  | looping
  | raised (e : PyErr)
  | done (objs : List α) (last : ApiResponse α)
  deriving DecidableEq, Repr

/-- Embedding of the pagination loop: page size 100, page counter from 0,
remainder recomputed each iteration as ((page + 1) * 100) < totalCount of
the response just received.  The fuel argument only bounds how many
iterations we unfold; the loop itself has no page bound. -/
def fetchLoop {α : Type} (api : Nat → ApiResponse α) :
    Nat → Nat → List α → FetchOutcome α
  | 0, _, _ => FetchOutcome.looping
  | fuel + 1, page, acc =>
    match (api page).data with
    | ApiData.json total results =>
      let acc2 := acc ++ results
      if (page + 1) * 100 < total then fetchLoop api fuel (page + 1) acc2
      else FetchOutcome.done acc2 (api page)
    | _ => FetchOutcome.raised PyErr.typeError

/-- Outcome of one module thread body. -/
inductive RunOutcome where
  | looping
  | raised (e : PyErr)
  | finished (log : ModuleLog) (store : List SFile) (msgs : List String)
  deriving DecidableEq, Repr

/-- Embedding of the whole body of categories.get: pagination loop, then
the success check on the last response; on success the removal scan and
save loop, on failure an error log line and the untouched empty log. -/
def categoriesGet (api : Nat → ApiResponse FetchedRec)
    (loadName : String → Except PyErr String)
    (store : List SFile) (fuel : Nat) : RunOutcome :=
  match fetchLoop api fuel 0 [] with
  | FetchOutcome.looping => RunOutcome.looping
  | FetchOutcome.raised e => RunOutcome.raised e
  | FetchOutcome.done objs last =>
    if last.success then
      match categoriesRun loadName objs store with
      | Except.error e => RunOutcome.raised e
      | Except.ok (log, st) => RunOutcome.finished log st [("Completed categories")]
    else
      RunOutcome.finished { diff := [], add := [], remove := [] } store
        [("Failed to retrieve: categories")]

/-- Value that main reads back from a module thread: get\_value returns the
function result, or None when the thread body raised (run died before
assigning the return slot).  The looping case never hands back a value. -/
def threadValue (module : String) : RunOutcome → Option (String × ModuleLog)
  | RunOutcome.finished log _ _ => some (module, log)
  | _ => none

/-- Embedding of the collection loop of jamf\_change\_monitor.main lines
256 to 263: logs.update is applied to each collected value in completion
order; update of None raises TypeError, aborting main. -/
def mainCollect : List (Option (String × ModuleLog)) →
    Except PyErr (List (String × ModuleLog))
  | [] => Except.ok []
  | none :: _ => Except.error PyErr.typeError
  | some ml :: rest => (mainCollect rest).map (fun t => ml :: t)

/-- Kind tag of a commit handed to git by main. -/
inductive CommitKind where
  | created
  | changed
  | removed
  deriving DecidableEq, Repr

/-- Embedding of the commit loops of main lines 280 to 301: one pass over
all modules committing every add entry, then a pass committing every diff
entry, then a pass processing every remove entry, each inner list in its
stored order. -/
def commitSequence (logs : List (String × ModuleLog)) :
    List (String × CommitKind × ChangeEntry) :=
  logs.flatMap (fun ml => ml.2.add.map (fun e => (ml.1, CommitKind.created, e)))
  ++ logs.flatMap (fun ml => ml.2.diff.map (fun e => (ml.1, CommitKind.changed, e)))
  ++ logs.flatMap (fun ml => ml.2.remove.map (fun e => (ml.1, CommitKind.removed, e)))

/-- Embedding of the removal pass of main lines 294 to 301 as it acts on
one module's snapshot directory: git rm deletes the tracked file from the
working tree (then the removal is committed); if git rm fails the file is
unlinked directly.  On either branch the named file is gone from the
store afterwards. -/
def removalStep (gitRmOk : String → Bool) (module : String) :
    List ChangeEntry → List SFile → List SFile
  | [], store => store
  | e :: rest, store =>
    let store2 :=
      if gitRmOk e.file then store.filter (fun f => fpath module f.name != e.file)
      else store.filter (fun f => fpath module f.name != e.file)
    removalStep gitRmOk module rest store2

/-- A fetched script object after normalization: identity, display name,
the canonical bytes of its metadata unit (json.dumps of clean\_data of
the object with scriptContents deleted), and the raw script body
(the scriptContents value, written verbatim to the script unit). -/
structure ScriptRec where
  id : Nat
  name : String
  dataCanon : String
  script : String
  deriving DecidableEq, Repr

/-- Line-break characters recognized by Python str.splitlines. -/
def isLineBreak (c : Char) : Bool :=
  c == '\n' || c == '\r' || c == '\x0b' || c == '\x0c' ||
  c == '\x1c' || c == '\x1d' || c == '\x1e' || c == '\x85' ||
  c == ' ' || c == ' '

/-- Worker for pySplitlines: cur holds the current line reversed. -/
def splitlinesAux : List Char → List Char → List String
  | cur, [] => if cur.isEmpty then [] else [String.mk cur.reverse]
  | cur, '\r' :: '\n' :: rest => String.mk cur.reverse :: splitlinesAux [] rest
  | cur, c :: rest =>
    if isLineBreak c then String.mk cur.reverse :: splitlinesAux [] rest
    else splitlinesAux (c :: cur) rest

/-- Embedding of Python str.splitlines(): split at line boundaries, with
a carriage return and line feed pair counting as one boundary and no
trailing empty line for a terminal boundary. -/
def pySplitlines (s : String) : List String :=
  splitlinesAux [] s.toList

/-- One file-unit of the scripts save loop: if the file exists, compare
the stored content via the unit's change predicate and rewrite plus log
one diff entry exactly when it fires; otherwise create the file and log
one add entry.  The predicate is byte inequality for the metadata unit
(line 92) and a nonempty difflib.context\_diff for the script unit (line
115), which is nonempty exactly when the splitlines sequences differ. -/
def unitSave (changed : String → Bool) (fname newContent : String)
    (entry : ChangeEntry) (store : List SFile) :
    List ChangeEntry × List ChangeEntry × List SFile :=
  match lookupFile store fname with
  | some f =>
    if changed f.content then ([entry], [], updateFile store fname newContent)
    else ([], [], store)
  | none => ([], [entry], createFile store fname newContent)

/-- The log entry of the scripts metadata unit (lines 96 to 99 and 104
to 107). -/
def scriptsDataEntry (o : ScriptRec) : ChangeEntry :=
  { name := o.name, id := pyStr o.id, file := fpath ("scripts") (pyStr o.id ++ (".data")) }

/-- The log entry of the scripts script unit (lines 119 to 122 and 127
to 130). -/
def scriptsScriptEntry (o : ScriptRec) : ChangeEntry :=
  { name := o.name, id := pyStr o.id, file := fpath ("scripts") (pyStr o.id ++ (".script")) }

/-- The metadata unit step of scripts.py lines 89 to 108: byte comparison
against the canonical metadata. -/
def scriptsDataStep (o : ScriptRec) (store : List SFile) :
    List ChangeEntry × List ChangeEntry × List SFile :=
  unitSave (fun old => old != o.dataCanon) (pyStr o.id ++ (".data")) o.dataCanon
    (scriptsDataEntry o) store

/-- The script unit step of scripts.py lines 111 to 131: the change test
is a nonempty difflib.context\_diff, i.e. differing splitlines
sequences. -/
def scriptsScriptStep (o : ScriptRec) (store : List SFile) :
    List ChangeEntry × List ChangeEntry × List SFile :=
  unitSave (fun old => pySplitlines old != pySplitlines o.script)
    (pyStr o.id ++ (".script")) o.script (scriptsScriptEntry o) store

/-- Embedding of the save loop of scripts.py lines 80 to 131: for each
fetched script in fetch order, first the metadata unit, then the script
unit on the resulting store. -/
def scriptsSave : List ScriptRec → List SFile →
    List ChangeEntry × List ChangeEntry × List SFile
  | [], store => ([], [], store)
  | o :: rest, store =>
    let stepD := scriptsDataStep o store
    let stepS := scriptsScriptStep o stepD.2.2
    let out := scriptsSave rest stepS.2.2
    (stepD.1 ++ stepS.1 ++ out.1, stepD.2.1 ++ stepS.2.1 ++ out.2.1, out.2.2)

/-- Name extraction for a removed scripts file (scripts.py lines 68 to
72): get\_name of the parsed file, with a JSON decode error caught and
replaced by the file stem; other errors escape. -/
def scriptsNameOf (loadName : String → Except PyErr String) (f : SFile) :
    Except PyErr String :=
  match loadName f.content with
  | Except.error PyErr.jsonDecodeError => Except.ok (pyStem f.name)
  | other => other

/-- Embedding of the body of scripts.get after a successful fetch:
removal scan over the directory listing, then the two-unit save loop. -/
def scriptsRun (loadName : String → Except PyErr String)
    (objs : List ScriptRec) (store : List SFile) :
    Except PyErr (ModuleLog × List SFile) :=
  match removeScan (scriptsNameOf loadName) ("scripts") (objs.map (fun o => o.id)) store with
  | Except.error e => Except.error e
  | Except.ok removes =>
    let out := scriptsSave objs store
    Except.ok ({ diff := out.1, add := out.2.1, remove := removes }, out.2.2)

/-- Embedding of the whole body of scripts.get, mirroring categoriesGet. -/
def scriptsGet (api : Nat → ApiResponse ScriptRec)
    (loadName : String → Except PyErr String)
    (store : List SFile) (fuel : Nat) : RunOutcome :=
  match fetchLoop api fuel 0 [] with
  | FetchOutcome.looping => RunOutcome.looping
  | FetchOutcome.raised e => RunOutcome.raised e
  | FetchOutcome.done objs last =>
    if last.success then
      match scriptsRun loadName objs store with
      | Except.error e => RunOutcome.raised e
      | Except.ok (log, st) => RunOutcome.finished log st [("Completed scripts")]
    else
      RunOutcome.finished { diff := [], add := [], remove := [] } store
        [("Failed to retrieve: scripts")]

/-- Result of a secondary per-identity detail fetch in computergroups.py
line 73: none when object\_query.success is false, otherwise the display
name computed by get\_name and the canonical bytes of json.dumps applied
to clean\_data of the detail record. -/
structure CGDetail where
  name : String
  canon : String
  deriving DecidableEq, Repr

/-- Embedding of the save loop of computergroups.py lines 72 to 98: for
each collection id in fetch order a detail query is made; when it fails
the object is skipped with no log entry of any kind, otherwise the file
is created or compared and rewritten exactly as in categories. -/
def computergroupsSave (detail : Nat → Option CGDetail) :
    List Nat → List SFile → List ChangeEntry × List ChangeEntry × List SFile
  | [], store => ([], [], store)
  | i :: rest, store =>
    match detail i with
    | none => computergroupsSave detail rest store
    | some d =>
      let fname := pyStr i
      let entry : ChangeEntry :=
        { name := d.name, id := pyStr i, file := fpath ("computergroups") fname }
      match lookupFile store fname with
      | some f =>
        if f.content ≠ d.canon then
          let out := computergroupsSave detail rest (updateFile store fname d.canon)
          (entry :: out.1, out.2.1, out.2.2)
        else computergroupsSave detail rest store
      | none =>
        let out := computergroupsSave detail rest (createFile store fname d.canon)
        (out.1, entry :: out.2.1, out.2.2)

/-- Embedding of the body of computergroups.get: a single collection
fetch whose success is checked up front, then the removal scan and the
save loop with per-identity detail fetches.  The msgs list carries the
log records of level info and above emitted by the module body and its
timer decorator (the runtime line, which holds wall-clock timings, is
elided); nothing inside the save loop logs. -/
def computergroupsGet (collSuccess : Bool) (ids : List Nat)
    (loadName : String → Except PyErr String) (detail : Nat → Option CGDetail)
    (store : List SFile) : RunOutcome :=
  if collSuccess then
    match removeScan (fun f => loadName f.content) ("computergroups") ids store with
    | Except.error e => RunOutcome.raised e
    | Except.ok removes =>
      let out := computergroupsSave detail ids store
      RunOutcome.finished { diff := out.1, add := out.2.1, remove := removes } out.2.2
        [("Starting computergroups"), ("Completed computergroups")]
  else
    RunOutcome.finished { diff := [], add := [], remove := [] } store
      [("Starting computergroups"), ("Failed to retrieve: computergroups")]

/-- Python JSON values as parsed from the API responses: dict key order
is the document order served by the source and is preserved (numbers are
modeled as integers, which covers every field the modules touch). -/
inductive PyJson where
  | null
  | bool (b : Bool)
  | num (n : Int)
  | str (s : String)
  | arr (items : List PyJson)
  | obj (fields : List (String × PyJson))
  deriving Repr

/-- Spaces for one indentation of json.dumps with indent 4. -/
def spaces (n : Nat) : String := String.mk (List.replicate n ' ')

/-- One hex digit of a JSON unicode escape. -/
def hex4 (n : Nat) : String :=
  String.mk [Nat.digitChar (n / 4096 % 16), Nat.digitChar (n / 256 % 16),
    Nat.digitChar (n / 16 % 16), Nat.digitChar (n % 16)]

/-- Escaping of one character by json.dumps with its default
ensure\_ascii: the two-character escapes for quote, backslash and the
common control characters, unicode escapes (with surrogate pairs beyond
the basic plane) for other control or non-ASCII characters. -/
def escChar (c : Char) : String :=
  if c == '"' then "\\\""
  else if c == '\\' then "\\\\"
  else if c == '\n' then "\\n"
  else if c == '\t' then "\\t"
  else if c == '\r' then "\\r"
  else if c == '\x08' then "\\b"
  else if c == '\x0c' then "\\f"
  else if c.toNat < 32 || c.toNat > 126 then
    if c.toNat < 65536 then "\\u" ++ hex4 c.toNat
    else
      let v := c.toNat - 65536
      "\\u" ++ hex4 (55296 + v / 1024) ++ "\\u" ++ hex4 (56320 + v % 1024)
  else String.mk [c]

/-- A JSON string literal as produced by json.dumps. -/
def pyJsonQuote (s : String) : String :=
  "\"" ++ String.join (s.toList.map escChar) ++ "\""

mutual

/-- Embedding of json.dumps(value, indent=4, sort\_keys=False): dict keys
in stored order, four spaces of indentation per level, item separator a
comma plus newline, key separator a colon plus space, empty containers
on one line. -/
def pyDumpsAux (lvl : Nat) : PyJson → String
  | PyJson.null => "null"
  | PyJson.bool true => "true"
  | PyJson.bool false => "false"
  | PyJson.num n => toString n
  | PyJson.str s => pyJsonQuote s
  | PyJson.arr [] => "[]"
  | PyJson.arr (x :: xs) =>
    "[\n" ++ pyDumpsItems (lvl + 1) (x :: xs) ++ "\n" ++ spaces (4 * lvl) ++ "]"
  | PyJson.obj [] => "\x7b\x7d"
  | PyJson.obj (f :: fs) =>
    "\x7b\n" ++ pyDumpsFields (lvl + 1) (f :: fs) ++ "\n" ++ spaces (4 * lvl) ++ "\x7d"

/-- Array items of pyDumpsAux, comma separated on their own lines. -/
def pyDumpsItems (lvl : Nat) : List PyJson → String
  | [] => ""
  | [x] => spaces (4 * lvl) ++ pyDumpsAux lvl x
  | x :: y :: xs =>
    spaces (4 * lvl) ++ pyDumpsAux lvl x ++ ",\n" ++ pyDumpsItems lvl (y :: xs)

/-- Object fields of pyDumpsAux, comma separated on their own lines. -/
def pyDumpsFields (lvl : Nat) : List (String × PyJson) → String
  | [] => ""
  | [(k, v)] => spaces (4 * lvl) ++ pyJsonQuote k ++ ": " ++ pyDumpsAux lvl v
  | (k, v) :: g :: fs =>
    spaces (4 * lvl) ++ pyJsonQuote k ++ ": " ++ pyDumpsAux lvl v ++ ",\n"
      ++ pyDumpsFields lvl (g :: fs)

end

/-- Top-level json.dumps with indent 4 and sort\_keys False. -/
def pyDumps (j : PyJson) : String := pyDumpsAux 0 j

/-- Dict subscript: value stored under a key, KeyError when absent,
TypeError when the value subscripted is not a dict. -/
def jGet : PyJson → String → Except PyErr PyJson
  | PyJson.obj fields, k =>
    match fields.find? (fun p => p.1 == k) with
    | some p => Except.ok p.2
    | none => Except.error PyErr.keyError
  | _, _ => Except.error PyErr.typeError

/-- Dict del of a key (keys of a Python dict are unique). -/
def jDelKey : PyJson → String → Except PyErr PyJson
  | PyJson.obj fields, k =>
    if fields.any (fun p => p.1 == k) then
      Except.ok (PyJson.obj (fields.filter (fun p => p.1 != k)))
    else Except.error PyErr.keyError
  | _, _ => Except.error PyErr.typeError

/-- Dict assignment: an existing key keeps its position, a new key is
appended. -/
def jSetKey : PyJson → String → PyJson → Except PyErr PyJson
  | PyJson.obj fields, k, v =>
    if fields.any (fun p => p.1 == k) then
      Except.ok (PyJson.obj (fields.map (fun p => if p.1 == k then (k, v) else p)))
    else Except.ok (PyJson.obj (fields ++ [(k, v)]))
  | _, _, _ => Except.error PyErr.typeError

/-- Python truthiness of a JSON value, as tested by the if on
is\_smart. -/
def pyTruthy : PyJson → Bool
  | PyJson.null => false
  | PyJson.bool b => b
  | PyJson.num n => n != 0
  | PyJson.str s => !s.isEmpty
  | PyJson.arr items => !items.isEmpty
  | PyJson.obj fields => !fields.isEmpty

/-- Integer value stored under a key (the member ids sorted by
clean\_data are integers in the classic API). -/
def jGetInt (j : PyJson) (k : String) : Except PyErr Int := do
  match ← jGet j k with
  | PyJson.num n => Except.ok n
  | _ => Except.error PyErr.typeError

/-- The simplified member list built by computergroups.clean\_data lines
118 to 120: each member reduced to a single-key dict holding its id,
paired here with that id as the sort key of line 121. -/
def cgSimplify (items : List PyJson) : Except PyErr (List (Int × PyJson)) :=
  items.mapM (fun c => do
    let i ← jGetInt c ("id")
    Except.ok (i, PyJson.obj [(("id"), PyJson.num i)]))

/-- Embedding of computergroups.clean\_data (lines 107 to 123): a smart
group has its volatile computers member list deleted; a static group has
it replaced by the simplified member dicts sorted by id. -/
def cgCleanData (j : PyJson) : Except PyErr PyJson := do
  let cg ← jGet j ("computer_group")
  let smart ← jGet cg ("is_smart")
  if pyTruthy smart then
    let cg2 ← jDelKey cg ("computers")
    jSetKey j ("computer_group") cg2
  else
    match ← jGet cg ("computers") with
    | PyJson.arr items =>
      let pairs ← cgSimplify items
      let sorted := (pairs.mergeSort (fun a b => decide (a.1 ≤ b.1))).map (fun p => p.2)
      let cg2 ← jSetKey cg ("computers") (PyJson.arr sorted)
      jSetKey j ("computer_group") cg2
    | _ => Except.error PyErr.typeError

/-- Embedding of categories.clean\_data (lines 109 to 116): the object is
returned unchanged. -/
def categoriesCleanData (j : PyJson) : PyJson := j

/-- Canonical content of a categories object: json.dumps of clean\_data
of the object with indent 4 and sort\_keys False (line 83). -/
def categoriesCanon (j : PyJson) : String := pyDumps (categoriesCleanData j)

/-- Canonical content of a computergroups object. -/
def cgCanon (j : PyJson) : Except PyErr String := (cgCleanData j).map pyDumps

/-- Phases of one module unit of work in the scheduler: pending before
the semaphore is acquired at the top of ThreadFunction.run, running
while the module function executes, finished when run has returned with
the token still held, collected once main has read the value through
get\_value, which joins the thread and releases the token. -/
inductive UnitPhase where
  | pending
  | running
  | finished
  | collected
  deriving DecidableEq, Repr

/-- One unit of work together with how many times its token has been
released. -/
structure SchedUnit where
  phase : UnitPhase
  releases : Nat
  deriving DecidableEq, Repr

/-- Scheduler state: free tokens of the class-level semaphore plus the
units. -/
structure SchedState where
  sem : Nat
  units : List SchedUnit
  deriving DecidableEq, Repr

/-- Capacity of ThreadFunction.LIMIT (simple\_multitasking.py line 25). -/
def semCapacity : Nat := 25

/-- Initial scheduler state: all units pending, all tokens free. -/
def initSched (n : Nat) : SchedState :=
  { sem := semCapacity,
    units := List.replicate n { phase := UnitPhase.pending, releases := 0 } }

/-- Interleaved transitions of the scheduler.  acquire is the semaphore
acquire at the top of run, enabled only when a token is free; finish is
run returning, with the token kept; collect is main reading the value of
a thread that is no longer alive and not yet handled, which joins,
marks the unit handled and releases the token exactly then. -/
inductive SchedStep : SchedState → SchedState → Prop where
  | acquire (s : SchedState) (i : Nat) (u : SchedUnit)
      (hu : s.units[i]? = some u) (hp : u.phase = UnitPhase.pending)
      (hs : 0 < s.sem) :
      SchedStep s { sem := s.sem - 1, units := s.units.set i { u with phase := UnitPhase.running } }
  | finish (s : SchedState) (i : Nat) (u : SchedUnit)
      (hu : s.units[i]? = some u) (hp : u.phase = UnitPhase.running) :
      SchedStep s { s with units := s.units.set i { u with phase := UnitPhase.finished } }
  | collect (s : SchedState) (i : Nat) (u : SchedUnit)
      (hu : s.units[i]? = some u) (hp : u.phase = UnitPhase.finished) :
      SchedStep s { sem := s.sem + 1, units := s.units.set i { phase := UnitPhase.collected, releases := u.releases + 1 } }

/-- States reachable from the initial state with n units. -/
inductive SchedReachable (n : Nat) : SchedState → Prop where
  | init : SchedReachable n (initSched n)
  | step {s t : SchedState} : SchedReachable n s → SchedStep s t →
      SchedReachable n t

/-- A unit holds an active concurrency slot while it has acquired the
token and not yet released it. -/
def holdsSlot (u : SchedUnit) : Bool :=
  u.phase == UnitPhase.running || u.phase == UnitPhase.finished

/-- Number of units holding a slot. -/
def heldCount (s : SchedState) : Nat := s.units.countP holdsSlot

/-- Scheduler invariant: held slots and free tokens always partition the
capacity, and a unit's token has been released exactly once when it has
been collected and never before. -/
def SchedInv (s : SchedState) : Prop :=
  heldCount s + s.sem = semCapacity
  ∧ ∀ u ∈ s.units, (u.phase = UnitPhase.collected → u.releases = 1)
      ∧ (u.phase ≠ UnitPhase.collected → u.releases = 0)

/-- A response sequence whose reported total grows by a full page size
every page: the loop condition ((page + 1) * 100) < totalCount then holds
at every page. -/
def growApi : Nat → ApiResponse FetchedRec :=
  fun page => { success := true, data := ApiData.json ((page + 2) * 100) [] }

/-- A collection fetch that fails every page with an HTTP error body. -/
def failApi : Nat → ApiResponse FetchedRec :=
  fun _ => { success := false, data := ApiData.text ("Internal Server Error") }

/-- The pagination loop never exits, whatever iteration bound it is
observed for: the negation of termination, and in particular no bounded
number of pages ever produces a fetch error. -/
def fetchLoopDiverges {α : Type} (api : Nat → ApiResponse α) : Prop :=
  ∀ (fuel page : Nat) (acc : List α), fetchLoop api fuel page acc = FetchOutcome.looping

/-- A static computer group as the classic API serves it: a name, a
falsy is\_smart flag and a member list. -/
def mkStaticGroup (nm : String) (items : List PyJson) : PyJson :=
  PyJson.obj [(("computer_group"), PyJson.obj [(("name"), PyJson.str nm),
    (("is_smart"), PyJson.bool false), (("computers"), PyJson.arr items)])]

/-- A smart computer group as the classic API serves it: a name, a
truthy is\_smart flag and a volatile computed member list. -/
def mkSmartGroup (nm : String) (items : List PyJson) : PyJson :=
  PyJson.obj [(("computer_group"), PyJson.obj [(("name"), PyJson.str nm),
    (("is_smart"), PyJson.bool true), (("computers"), PyJson.arr items)])]

/-- What clean\_data leaves of a smart group: the computers key deleted
(computergroups.py line 116), the remaining keys in their original
order. -/
def mkSmartGroupCleaned (nm : String) : PyJson :=
  PyJson.obj [(("computer_group"), PyJson.obj [(("name"), PyJson.str nm),
    (("is_smart"), PyJson.bool true)])]

/-- What clean\_data leaves of a static group: each member reduced to its
id dict and the list sorted by id (computergroups.py lines 117 to 121). -/
def mkStaticGroupCleaned (nm : String) (pairs : List (Int × PyJson)) : PyJson :=
  PyJson.obj [(("computer_group"), PyJson.obj [(("name"), PyJson.str nm),
    (("is_smart"), PyJson.bool false),
    (("computers"), PyJson.arr
      ((pairs.mergeSort (fun a b => decide (a.1 ≤ b.1))).map (fun p => p.2)))])]

section Lemmas

/-- A digit character for a value below ten is a decimal digit. -/
theorem digitChar_isDigit {n : Nat} (h : n < 10) : (Nat.digitChar n).isDigit := by
  interval_cases n <;> decide

/-- A digit character for a value below ten decodes back to it. -/
theorem digitChar_toNat {n : Nat} (h : n < 10) : (Nat.digitChar n).toNat - 48 = n := by
  interval_cases n <;> decide

/-- The decimal rendering of an identity is never empty. -/
theorem pyStrAux_ne_nil (n : Nat) : pyStrAux n ≠ [] := by
  unfold pyStrAux pyStrCore
  split <;> simp

/-- Every character of the rendering worker is a digit. -/
theorem pyStrCore_all_digit : ∀ (fuel n : Nat), ∀ c ∈ pyStrCore fuel n, c.isDigit := by
  intro fuel
  induction fuel with
  | zero =>
    intro n c hc
    cases hc
  | succ fuel ih =>
    intro n c hc
    unfold pyStrCore at hc
    by_cases hn : n < 10
    · rw [if_pos hn, List.mem_singleton] at hc
      subst hc
      exact digitChar_isDigit hn
    · rw [if_neg hn, List.mem_append] at hc
      rcases hc with hc | hc
      · exact ih (n / 10) c hc
      · rw [List.mem_singleton] at hc
        subst hc
        exact digitChar_isDigit (Nat.mod_lt _ (by omega))

/-- Every character of the decimal rendering is a digit. -/
theorem pyStrAux_all_digit (n : Nat) : ∀ c ∈ pyStrAux n, c.isDigit :=
  pyStrCore_all_digit (n + 1) n

/-- Folding the digits produced by the rendering worker recovers the
value, for any sufficient fuel. -/
theorem pyStrCore_val : ∀ (fuel n : Nat), n < fuel →
    (pyStrCore fuel n).foldl (fun acc c => acc * 10 + (c.toNat - 48)) 0 = n := by
  intro fuel
  induction fuel with
  | zero =>
    intro n hn
    omega
  | succ fuel ih =>
    intro n hn
    unfold pyStrCore
    by_cases h : n < 10
    · rw [if_pos h]
      simp [List.foldl, digitChar_toNat h]
    · rw [if_neg h]
      rw [List.foldl_append]
      have hdiv : n / 10 < fuel := by
        have h1 : n / 10 < n := Nat.div_lt_self (by omega) (by omega)
        omega
      rw [ih (n / 10) hdiv]
      have hm : n % 10 < 10 := Nat.mod_lt n (by omega)
      simp only [List.foldl, digitChar_toNat hm]
      omega

/-- Folding the decimal digits of an identity recovers the identity. -/
theorem pyStrAux_val (n : Nat) :
    (pyStrAux n).foldl (fun acc c => acc * 10 + (c.toNat - 48)) 0 = n :=
  pyStrCore_val (n + 1) n (by omega)

/-- Python int() applied to str() of an identity returns the identity. -/
theorem pyIntNat_pyStr (n : Nat) : pyIntNat (pyStr n) = some n := by
  have hne := pyStrAux_ne_nil n
  have hdig := pyStrAux_all_digit n
  have hval := pyStrAux_val n
  unfold pyIntNat pyStr
  have htl : (String.mk (pyStrAux n)).toList = pyStrAux n := rfl
  rw [htl]
  rw [if_neg (by simpa [List.isEmpty_iff] using hne)]
  rw [if_pos (by rw [List.all_eq_true]; intro c hc; exact hdig c hc)]
  rw [hval]

/-- Decimal renderings of distinct identities are distinct strings. -/
theorem pyStr_inj {a b : Nat} (h : pyStr a = pyStr b) : a = b := by
  have ha := pyIntNat_pyStr a
  rw [h, pyIntNat_pyStr b] at ha
  exact (Option.some_inj.mp ha).symm

/-- The decimal rendering of an identity begins with a digit, so the
removal scans always consider the files the save loops write. -/
theorem startsWithDigit_pyStr (n : Nat) : startsWithDigit (pyStr n) = true := by
  have hne := pyStrAux_ne_nil n
  have hdig := pyStrAux_all_digit n
  unfold startsWithDigit pyStr
  have htl : (String.mk (pyStrAux n)).toList = pyStrAux n := rfl
  rw [htl]
  match hm : pyStrAux n with
  | [] => exact absurd hm hne
  | c :: rest => exact hdig c (by rw [hm]; exact List.mem_cons_self c rest)

/-- Paths of two files of one module agree only when the file names do. -/
theorem fpath_inj {m a b : String} (h : fpath m a = fpath m b) : a = b := by
  unfold fpath at h
  have hd : (m ++ ("/")).data ++ a.data = (m ++ ("/")).data ++ b.data := by
    have := congrArg String.data h
    simpa [String.data_append] using this
  have : a.data = b.data := List.append_cancel_left hd
  cases a
  cases b
  cases this
  rfl

/-- A successful store lookup returns a file bearing the looked-up
name. -/
theorem lookupFile_name {store : List SFile} {fname : String} {f : SFile}
    (h : lookupFile store fname = some f) : f.name = fname := by
  have := List.find?_some h
  simpa using this

/-- A whole-file replace leaves every lookup result in place, with only
the content of the written name changed. -/
theorem lookupFile_updateFile (store : List SFile) (g c fname : String) :
    lookupFile (updateFile store g c) fname =
      (lookupFile store fname).map
        (fun f => if f.name == g then { f with content := c } else f) := by
  induction store with
  | nil => rfl
  | cons f rest ih =>
    have hname : ((if f.name == g then { f with content := c } else f) : SFile).name
        = f.name := by
      by_cases hg : f.name = g <;> simp [hg]
    unfold lookupFile updateFile
    rw [List.map_cons]
    by_cases hf : f.name = fname
    · rw [List.find?_cons_of_pos _ (by rw [hname]; simp [hf])]
      have hr : List.find? (fun x : SFile => x.name == fname) (f :: rest) = some f :=
        List.find?_cons_of_pos _ (by simp [hf])
      rw [hr]
      simp
    · rw [List.find?_cons_of_neg _ (by rw [hname]; simp [hf])]
      have hr : List.find? (fun x : SFile => x.name == fname) (f :: rest)
          = List.find? (fun x : SFile => x.name == fname) rest :=
        List.find?_cons_of_neg _ (by simp [hf])
      rw [hr]
      exact ih

/-- Looking up a different name than the one just created is unchanged;
looking up the created name finds the old file first, or the new one if
it is fresh. -/
theorem lookupFile_createFile (store : List SFile) (g c fname : String) :
    lookupFile (createFile store g c) fname =
      (lookupFile store fname).or
        (if g == fname then some { name := g, content := c } else none) := by
  unfold lookupFile createFile
  rw [List.find?_append]
  congr 1
  by_cases hg : g = fname
  · rw [List.find?_cons_of_pos _ (by simp [hg])]
    simp [hg]
  · rw [List.find?_cons_of_neg _ (by simp [hg])]
    simp [hg, List.find?]

/-- A replace under a different name does not change a lookup. -/
theorem lookupFile_update_ne {g fname : String} (store : List SFile) (c : String)
    (h : g ≠ fname) :
    lookupFile (updateFile store g c) fname = lookupFile store fname := by
  rw [lookupFile_updateFile]
  cases hl : lookupFile store fname with
  | none => rfl
  | some f =>
    have hn : f.name = fname := lookupFile_name hl
    have hb : (f.name == g) = false := by
      simp only [beq_eq_false_iff_ne, ne_eq, hn]
      exact fun hc => h hc.symm
    simp only [Option.map_some']
    rw [if_neg (by simp [hb])]

/-- A create under a different name does not change a lookup. -/
theorem lookupFile_create_ne {g fname : String} (store : List SFile) (c : String)
    (h : g ≠ fname) :
    lookupFile (createFile store g c) fname = lookupFile store fname := by
  rw [lookupFile_createFile]
  simp [h]

/-- A replace under the very name found rewrites exactly the found
file. -/
theorem lookupFile_update_eq {g : String} {store : List SFile} {f : SFile}
    (c : String) (hl : lookupFile store g = some f) :
    lookupFile (updateFile store g c) g = some { name := g, content := c } := by
  rw [lookupFile_updateFile, hl]
  have hn : f.name = g := lookupFile_name hl
  simp [hn]

/-- A create under a fresh name makes it found with the new bytes. -/
theorem lookupFile_create_eq {g : String} {store : List SFile}
    (c : String) (hl : lookupFile store g = none) :
    lookupFile (createFile store g c) g = some { name := g, content := c } := by
  rw [lookupFile_createFile, hl]
  simp

/-- The save loop never logs an entry for, nor touches the file of, a
name that none of the fetched objects bears. -/
theorem categoriesSave_untouched (objs : List FetchedRec) (store : List SFile)
    (fname : String) (h : ∀ o ∈ objs, pyStr o.id ≠ fname) :
    ((categoriesSave objs store).1.countP
        (fun e => e.file == fpath ("categories") fname) = 0)
    ∧ ((categoriesSave objs store).2.1.countP
        (fun e => e.file == fpath ("categories") fname) = 0)
    ∧ lookupFile (categoriesSave objs store).2.2 fname = lookupFile store fname := by
  induction objs generalizing store with
  | nil => simp [categoriesSave]
  | cons o rest ih =>
    have hno : pyStr o.id ≠ fname := h o (List.mem_cons_self o rest)
    have hrest : ∀ o2 ∈ rest, pyStr o2.id ≠ fname :=
      fun o2 h2 => h o2 (List.mem_cons_of_mem o h2)
    have hfile : (fpath ("categories") (pyStr o.id) == fpath ("categories") fname) = false := by
      simp only [beq_eq_false_iff_ne, ne_eq]
      intro hc
      exact hno (fpath_inj hc)
    cases hl : lookupFile store (pyStr o.id) with
    | some f =>
      by_cases hc : f.content = o.canon
      · unfold categoriesSave
        simp only [hl]
        rw [if_neg (by simp [hc])]
        exact ih store hrest
      · unfold categoriesSave
        simp only [hl]
        rw [if_pos hc]
        refine ⟨?_, (ih _ hrest).2.1, ?_⟩
        · have h1 := (ih (updateFile store (pyStr o.id) o.canon) hrest).1
          simpa [List.countP_cons, hfile] using h1
        · rw [(ih _ hrest).2.2, lookupFile_update_ne store o.canon hno]
    | none =>
      unfold categoriesSave
      simp only [hl]
      refine ⟨(ih _ hrest).1, ?_, ?_⟩
      · have h2 := (ih (createFile store (pyStr o.id) o.canon) hrest).2.1
        simpa [List.countP_cons, hfile] using h2
      · rw [(ih _ hrest).2.2, lookupFile_create_ne store o.canon hno]

/-- Specification of the save loop at one fetched object, identities
pairwise distinct: a file present with differing bytes yields exactly one
diff entry and the file rewritten to the canonical bytes; a file present
with equal bytes yields no entry and an untouched lookup; an absent file
yields exactly one add entry and the file created with the canonical
bytes. -/
theorem categoriesSave_spec (objs : List FetchedRec) (store : List SFile)
    (o : FetchedRec) (ho : o ∈ objs)
    (hnd : (objs.map (fun x => pyStr x.id)).Nodup) :
    ((∀ f, lookupFile store (pyStr o.id) = some f → f.content ≠ o.canon →
        ((categoriesSave objs store).1.countP
            (fun e => e.file == fpath ("categories") (pyStr o.id)) = 1)
        ∧ ((categoriesSave objs store).2.1.countP
            (fun e => e.file == fpath ("categories") (pyStr o.id)) = 0)
        ∧ lookupFile (categoriesSave objs store).2.2 (pyStr o.id)
            = some { name := pyStr o.id, content := o.canon }))
    ∧ (∀ f, lookupFile store (pyStr o.id) = some f → f.content = o.canon →
        ((categoriesSave objs store).1.countP
            (fun e => e.file == fpath ("categories") (pyStr o.id)) = 0)
        ∧ ((categoriesSave objs store).2.1.countP
            (fun e => e.file == fpath ("categories") (pyStr o.id)) = 0)
        ∧ lookupFile (categoriesSave objs store).2.2 (pyStr o.id) = some f)
    ∧ (lookupFile store (pyStr o.id) = none →
        ((categoriesSave objs store).1.countP
            (fun e => e.file == fpath ("categories") (pyStr o.id)) = 0)
        ∧ ((categoriesSave objs store).2.1.countP
            (fun e => e.file == fpath ("categories") (pyStr o.id)) = 1)
        ∧ lookupFile (categoriesSave objs store).2.2 (pyStr o.id)
            = some { name := pyStr o.id, content := o.canon }) := by
  induction objs generalizing store with
  | nil => cases ho
  | cons o0 rest ih =>
    have hnd0 : pyStr o0.id ∉ rest.map (fun x => pyStr x.id) :=
      (List.nodup_cons.mp hnd).1
    have hndr : (rest.map (fun x => pyStr x.id)).Nodup :=
      (List.nodup_cons.mp hnd).2
    rcases List.mem_cons.mp ho with rfl | hmem
    · -- o is the object at the head of the fetch order
      have hrest : ∀ o2 ∈ rest, pyStr o2.id ≠ pyStr o.id := by
        intro o2 h2 hcontra
        exact hnd0 (hcontra ▸ List.mem_map_of_mem (fun x => pyStr x.id) h2)
      have hunt := fun st => categoriesSave_untouched rest st (pyStr o.id) hrest
      refine ⟨?_, ?_, ?_⟩
      · intro f hl hne
        unfold categoriesSave
        simp only [hl]
        rw [if_pos hne]
        refine ⟨?_, (hunt _).2.1, ?_⟩
        · have h1 := (hunt (updateFile store (pyStr o.id) o.canon)).1
          simp [List.countP_cons, h1]
        · rw [(hunt _).2.2]
          exact lookupFile_update_eq o.canon hl
      · intro f hl heq
        unfold categoriesSave
        simp only [hl]
        rw [if_neg (by simp [heq])]
        exact ⟨(hunt store).1, (hunt store).2.1, by rw [(hunt store).2.2, hl]⟩
      · intro hl
        unfold categoriesSave
        simp only [hl]
        refine ⟨(hunt _).1, ?_, ?_⟩
        · have h2 := (hunt (createFile store (pyStr o.id) o.canon)).2.1
          simp [List.countP_cons, h2]
        · rw [(hunt _).2.2]
          exact lookupFile_create_eq o.canon hl
    · -- o sits further along the fetch order
      have hne0 : pyStr o0.id ≠ pyStr o.id := by
        intro hcontra
        exact hnd0 (hcontra ▸ List.mem_map_of_mem (fun x => pyStr x.id) hmem)
      have hfile : (fpath ("categories") (pyStr o0.id)
          == fpath ("categories") (pyStr o.id)) = false := by
        simp only [beq_eq_false_iff_ne, ne_eq]
        intro hc
        exact hne0 (fpath_inj hc)
      cases hl0 : lookupFile store (pyStr o0.id) with
      | some f0 =>
        by_cases hc0 : f0.content = o0.canon
        · unfold categoriesSave
          simp only [hl0]
          rw [if_neg (by simp [hc0])]
          exact ih store hmem hndr
        · have ihr := ih (updateFile store (pyStr o0.id) o0.canon) hmem hndr
          have hlk : lookupFile (updateFile store (pyStr o0.id) o0.canon) (pyStr o.id)
              = lookupFile store (pyStr o.id) :=
            lookupFile_update_ne store o0.canon hne0
          unfold categoriesSave
          simp only [hl0]
          rw [if_pos hc0]
          refine ⟨?_, ?_, ?_⟩
          · intro f hl hne
            have h := ihr.1 f (by rw [hlk]; exact hl) hne
            exact ⟨by simp [List.countP_cons, hfile, h.1], h.2.1, h.2.2⟩
          · intro f hl heq
            have h := ihr.2.1 f (by rw [hlk]; exact hl) heq
            exact ⟨by simp [List.countP_cons, hfile, h.1], h.2.1, h.2.2⟩
          · intro hl
            have h := ihr.2.2 (by rw [hlk]; exact hl)
            exact ⟨by simp [List.countP_cons, hfile, h.1], h.2.1, h.2.2⟩
      | none =>
        have ihr := ih (createFile store (pyStr o0.id) o0.canon) hmem hndr
        have hlk : lookupFile (createFile store (pyStr o0.id) o0.canon) (pyStr o.id)
            = lookupFile store (pyStr o.id) :=
          lookupFile_create_ne store o0.canon hne0
        unfold categoriesSave
        simp only [hl0]
        refine ⟨?_, ?_, ?_⟩
        · intro f hl hne
          have h := ihr.1 f (by rw [hlk]; exact hl) hne
          exact ⟨h.1, by simp [List.countP_cons, hfile, h.2.1], h.2.2⟩
        · intro f hl heq
          have h := ihr.2.1 f (by rw [hlk]; exact hl) heq
          exact ⟨h.1, by simp [List.countP_cons, hfile, h.2.1], h.2.2⟩
        · intro hl
          have h := ihr.2.2 (by rw [hlk]; exact hl)
          exact ⟨h.1, by simp [List.countP_cons, hfile, h.2.1], h.2.2⟩

/-- Every entry of a successful removal scan originates in a
digit-leading file of the listing whose stem matches no fetched id. -/
theorem removeScan_entries (nameOf : SFile → Except PyErr String) (m : String)
    (ids : List Nat) :
    ∀ (store : List SFile) (l : List ChangeEntry),
      removeScan nameOf m ids store = Except.ok l →
      ∀ e ∈ l, ∃ g, g ∈ store ∧ e.file = fpath m g.name ∧
        startsWithDigit g.name = true ∧
        noFetchedMatch ids (pyStem g.name) = Except.ok true := by
  intro store
  induction store with
  | nil =>
    intro l h e he
    unfold removeScan at h
    cases h
    cases he
  | cons f rest ih =>
    intro l h e he
    unfold removeScan at h
    by_cases hd : startsWithDigit f.name
    · rw [if_pos hd] at h
      cases hfm : noFetchedMatch ids (pyStem f.name) with
      | error e2 => rw [hfm] at h; cases h
      | ok b =>
        rw [hfm] at h
        cases b with
        | true =>
          cases hnm : nameOf f with
          | error e2 => rw [hnm] at h; cases h
          | ok nm =>
            rw [hnm] at h
            cases hsc : removeScan nameOf m ids rest with
            | error e2 => rw [hsc] at h; cases h
            | ok tail =>
              rw [hsc] at h
              simp only [bind, Except.bind] at h
              cases h
              rcases List.mem_cons.mp he with rfl | hmem
              · exact ⟨f, List.mem_cons_self f rest, rfl, hd, hfm⟩
              · rcases ih tail hsc e hmem with ⟨g, hg, hrest⟩
                exact ⟨g, List.mem_cons_of_mem f hg, hrest⟩
        | false =>
          rcases ih l h e he with ⟨g, hg, hrest⟩
          exact ⟨g, List.mem_cons_of_mem f hg, hrest⟩
    · rw [if_neg hd] at h
      rcases ih l h e he with ⟨g, hg, hrest⟩
      exact ⟨g, List.mem_cons_of_mem f hg, hrest⟩

/-- A successful removal scan has no entry for a name borne by no file of
the listing. -/
theorem removeScan_count_zero {nameOf : SFile → Except PyErr String}
    {m : String} {ids : List Nat} {store : List SFile} {l : List ChangeEntry}
    (h : removeScan nameOf m ids store = Except.ok l) (fname : String)
    (hout : fname ∉ store.map (fun g => g.name)) :
    l.countP (fun e => e.file == fpath m fname) = 0 := by
  rw [List.countP_eq_zero]
  intro e he
  simp only [beq_eq_false_iff_ne, ne_eq, Bool.not_eq_true, beq_eq_false_iff_ne]
  intro hc
  rcases removeScan_entries nameOf m ids store l h e he with ⟨g, hg, hfile, _, _⟩
  have : g.name = fname := fpath_inj (by rw [← hfile]; exact hc)
  exact hout (this ▸ List.mem_map_of_mem (fun g => g.name) hg)

/-- A digit-leading file of the listing whose stem matches no fetched id
yields exactly one remove entry when the listing names are distinct. -/
theorem removeScan_count_one {nameOf : SFile → Except PyErr String}
    {m : String} {ids : List Nat} :
    ∀ {store : List SFile} {l : List ChangeEntry},
      removeScan nameOf m ids store = Except.ok l →
      (store.map (fun g => g.name)).Nodup →
      ∀ g ∈ store, startsWithDigit g.name = true →
      noFetchedMatch ids (pyStem g.name) = Except.ok true →
      l.countP (fun e => e.file == fpath m g.name) = 1 := by
  intro store
  induction store with
  | nil =>
    intro l _ _ g hg
    cases hg
  | cons f rest ih =>
    intro l h hnd g hg hdg hfmg
    have hnd0 : f.name ∉ rest.map (fun x => x.name) := (List.nodup_cons.mp hnd).1
    have hndr : (rest.map (fun x => x.name)).Nodup := (List.nodup_cons.mp hnd).2
    unfold removeScan at h
    by_cases hd : startsWithDigit f.name
    · rw [if_pos hd] at h
      cases hfm : noFetchedMatch ids (pyStem f.name) with
      | error e2 => rw [hfm] at h; cases h
      | ok b =>
        rw [hfm] at h
        cases b with
        | true =>
          cases hnm : nameOf f with
          | error e2 => rw [hnm] at h; cases h
          | ok nm =>
            rw [hnm] at h
            cases hsc : removeScan nameOf m ids rest with
            | error e2 => rw [hsc] at h; cases h
            | ok tail =>
              rw [hsc] at h
              simp only [bind, Except.bind] at h
              cases h
              rcases List.mem_cons.mp hg with rfl | hmem
              · simp [List.countP_cons, removeScan_count_zero hsc g.name hnd0]
              · have hneq : g.name ≠ f.name := by
                  intro hc
                  exact hnd0 (hc ▸ List.mem_map_of_mem (fun x => x.name) hmem)
                have hpe : (fpath m f.name == fpath m g.name) = false := by
                  simp only [beq_eq_false_iff_ne, ne_eq]
                  intro hc
                  exact hneq (fpath_inj hc).symm
                simpa [List.countP_cons, hpe] using ih hsc hndr g hmem hdg hfmg
        | false =>
          rcases List.mem_cons.mp hg with rfl | hmem
          · rw [hfm] at hfmg
            cases hfmg
          · exact ih h hndr g hmem hdg hfmg
    · rw [if_neg hd] at h
      rcases List.mem_cons.mp hg with rfl | hmem
      · rw [hdg] at hd
        exact absurd rfl hd
      · exact ih h hndr g hmem hdg hfmg

/-- When every digit-leading file of the listing matches some fetched id
the removal scan returns no entries. -/
theorem removeScan_empty (nameOf : SFile → Except PyErr String) (m : String)
    (ids : List Nat) :
    ∀ (store : List SFile),
      (∀ f ∈ store, startsWithDigit f.name = true →
        noFetchedMatch ids (pyStem f.name) = Except.ok false) →
      removeScan nameOf m ids store = Except.ok [] := by
  intro store
  induction store with
  | nil => intro _; rfl
  | cons f rest ih =>
    intro h
    unfold removeScan
    by_cases hd : startsWithDigit f.name
    · rw [if_pos hd, h f (List.mem_cons_self f rest) hd]
      exact ih (fun f2 h2 hd2 => h f2 (List.mem_cons_of_mem f h2) hd2)
    · rw [if_neg hd]
      exact ih (fun f2 h2 hd2 => h f2 (List.mem_cons_of_mem f h2) hd2)

/-- One step of the removal pass filters the store by the entry's path,
on either branch of the git rm outcome. -/
theorem removalStep_cons (gitRmOk : String → Bool) (m : String)
    (e : ChangeEntry) (entries : List ChangeEntry) (store : List SFile) :
    removalStep gitRmOk m (e :: entries) store
      = removalStep gitRmOk m entries
          (store.filter (fun f => fpath m f.name != e.file)) := by
  conv_lhs => unfold removalStep
  split <;> rfl

/-- A file surviving the removal pass was in the store and matches none
of the processed entries. -/
theorem removalStep_mem_of {gitRmOk : String → Bool} {m : String} :
    ∀ {entries : List ChangeEntry} {store : List SFile} {f : SFile},
      f ∈ removalStep gitRmOk m entries store →
      f ∈ store ∧ ∀ e ∈ entries, fpath m f.name ≠ e.file := by
  intro entries
  induction entries with
  | nil =>
    intro store f h
    exact ⟨h, fun e he => absurd he (List.not_mem_nil e)⟩
  | cons e rest ih =>
    intro store f h
    rw [removalStep_cons] at h
    rcases ih h with ⟨hmem, hall⟩
    have := List.mem_filter.mp hmem
    refine ⟨this.1, ?_⟩
    intro e2 he2
    rcases List.mem_cons.mp he2 with rfl | hr
    · simpa using this.2
    · exact hall e2 hr

/-- Filtering away only files of other names leaves a lookup
untouched. -/
theorem lookupFile_filter {store : List SFile} {fname : String}
    {q : SFile → Bool} (h : ∀ f ∈ store, f.name = fname → q f = true) :
    lookupFile (store.filter q) fname = lookupFile store fname := by
  induction store with
  | nil => rfl
  | cons f rest ih =>
    have hstep := fun f2 h2 => h f2 (List.mem_cons_of_mem f h2)
    by_cases hn : f.name = fname
    · have hq : q f = true := h f (List.mem_cons_self f rest) hn
      rw [List.filter_cons_of_pos hq]
      unfold lookupFile
      rw [List.find?_cons_of_pos _ (by simp [hn]), List.find?_cons_of_pos _ (by simp [hn])]
    · cases hq : q f with
      | true =>
        rw [List.filter_cons_of_pos hq]
        unfold lookupFile
        rw [List.find?_cons_of_neg _ (by simp [hn]), List.find?_cons_of_neg _ (by simp [hn])]
        exact ih hstep
      | false =>
        rw [List.filter_cons_of_neg (by simp [hq])]
        unfold lookupFile at *
        rw [List.find?_cons_of_neg _ (by simp [hn])]
        exact ih hstep

/-- The removal pass does not touch a name none of its entries name. -/
theorem removalStep_lookup {gitRmOk : String → Bool} {m : String} :
    ∀ {entries : List ChangeEntry} (store : List SFile) {fname : String},
      (∀ e ∈ entries, e.file ≠ fpath m fname) →
      lookupFile (removalStep gitRmOk m entries store) fname
        = lookupFile store fname := by
  intro entries
  induction entries with
  | nil => intro store fname _; rfl
  | cons e rest ih =>
    intro store fname h
    rw [removalStep_cons]
    rw [ih _ (fun e2 h2 => h e2 (List.mem_cons_of_mem e h2))]
    apply lookupFile_filter
    intro f hf hn
    simp only [bne_iff_ne, ne_eq, decide_eq_true_eq]
    intro hc
    exact h e (List.mem_cons_self e rest) (by rw [← hc, hn])

/-- A name absent from the store stays absent through the removal
pass. -/
theorem removalStep_none {gitRmOk : String → Bool} {m : String} :
    ∀ {entries : List ChangeEntry} {store : List SFile} {fname : String},
      lookupFile store fname = none →
      lookupFile (removalStep gitRmOk m entries store) fname = none := by
  intro entries store fname h
  unfold lookupFile at *
  rw [List.find?_eq_none] at *
  intro f hf
  exact h f (removalStep_mem_of hf).1

/-- Processing an entry that names a file's path deletes every file of
that name for the rest of the run. -/
theorem removalStep_absent {gitRmOk : String → Bool} {m : String} :
    ∀ {entries : List ChangeEntry} {store : List SFile} {fname : String},
      (∃ e ∈ entries, e.file = fpath m fname) →
      lookupFile (removalStep gitRmOk m entries store) fname = none := by
  intro entries
  induction entries with
  | nil =>
    intro store fname h
    rcases h with ⟨e, he, _⟩
    cases he
  | cons e rest ih =>
    intro store fname h
    rcases h with ⟨e2, he2, hfile⟩
    rcases List.mem_cons.mp he2 with rfl | hr
    · rw [removalStep_cons]
      apply removalStep_none
      unfold lookupFile
      rw [List.find?_eq_none]
      intro f hf
      have := List.mem_filter.mp hf
      simp only [bne_iff_ne, ne_eq, hfile] at this
      intro hc
      exact this.2 (by rw [show f.name = fname from by simpa using hc])
    · rw [removalStep_cons]
      exact ih ⟨e2, hr, hfile⟩

/-- Names present after the save loop: an original listing name or the
decimal name of a fetched object. -/
theorem categoriesSave_names (objs : List FetchedRec) :
    ∀ (store : List SFile) (f : SFile),
      f ∈ (categoriesSave objs store).2.2 →
      f.name ∈ store.map (fun g => g.name) ∨ ∃ o ∈ objs, f.name = pyStr o.id := by
  induction objs with
  | nil =>
    intro store f h
    exact Or.inl (List.mem_map_of_mem (fun g => g.name) h)
  | cons o rest ih =>
    intro store f h
    unfold categoriesSave at h
    cases hl : lookupFile store (pyStr o.id) with
    | some g =>
      simp only [hl] at h
      by_cases hc : g.content = o.canon
      · rw [if_neg (by simp [hc])] at h
        rcases ih store f h with hin | ⟨o2, ho2, hname⟩
        · exact Or.inl hin
        · exact Or.inr ⟨o2, List.mem_cons_of_mem o ho2, hname⟩
      · rw [if_pos hc] at h
        rcases ih _ f h with hin | ⟨o2, ho2, hname⟩
        · left
          unfold updateFile at hin
          rw [List.map_map] at hin
          have : ∀ x : SFile,
              ((fun g => g.name) ∘ fun f =>
                if f.name == pyStr o.id then { f with content := o.canon } else f) x
              = x.name := by
            intro x
            by_cases hx : x.name = pyStr o.id <;> simp [hx]
          rwa [List.map_congr_left (fun x _ => this x)] at hin
        · exact Or.inr ⟨o2, List.mem_cons_of_mem o ho2, hname⟩
    | none =>
      simp only [hl] at h
      rcases ih _ f h with hin | ⟨o2, ho2, hname⟩
      · unfold createFile at hin
        rw [List.map_append] at hin
        rcases List.mem_append.mp hin with hin | hin
        · exact Or.inl hin
        · right
          exact ⟨o, List.mem_cons_self o rest, by simpa using hin⟩
      · exact Or.inr ⟨o2, List.mem_cons_of_mem o ho2, hname⟩

/-- The stem of a decimal identity name is the name itself. -/
theorem pyStem_pyStr (n : Nat) : pyStem (pyStr n) = pyStr n := by
  have hdig := pyStrAux_all_digit n
  unfold pyStem
  have hdrop : (pyStr n).toList.reverse.dropWhile (fun c => decide (c ≠ '.')) = [] := by
    rw [List.dropWhile_eq_nil_iff]
    intro c hc
    have : c ∈ pyStrAux n := List.mem_reverse.mp hc
    have hd := hdig c this
    simp only [ne_eq, decide_eq_true_eq]
    intro hdot
    rw [hdot] at hd
    cases hd
  simp only [hdrop]

/-- A stem that matches a fetched id is never scheduled for removal. -/
theorem noFetchedMatch_false {ids : List Nat} {n : Nat} (h : n ∈ ids) :
    noFetchedMatch ids (pyStr n) = Except.ok false := by
  unfold noFetchedMatch
  cases ids with
  | nil => cases h
  | cons i rest =>
    rw [pyIntNat_pyStr]
    simp only [Except.ok.injEq]
    rw [List.all_eq_false]
    exact ⟨n, h, by simp⟩

/-- A decimal name whose id no fetched object bears is scheduled for
removal. -/
theorem noFetchedMatch_true {ids : List Nat} {n : Nat} (h : n ∉ ids) :
    noFetchedMatch ids (pyStr n) = Except.ok true := by
  unfold noFetchedMatch
  cases ids with
  | nil => rfl
  | cons i rest =>
    rw [pyIntNat_pyStr]
    simp only [Except.ok.injEq]
    rw [List.all_eq_true]
    intro x hx
    simp only [bne_iff_ne, ne_eq]
    intro hc
    exact h (hc ▸ hx)

/-- Appending the same suffix to two strings cancels. -/
theorem append_right_cancel_str {a b s : String} (h : a ++ s = b ++ s) : a = b := by
  have hd := congrArg String.data h
  simp only [String.data_append] at hd
  have := List.append_cancel_right hd
  cases a
  cases b
  cases this
  rfl

/-- A metadata unit name never coincides with a script unit name. -/
theorem dataName_ne_scriptName (a b : Nat) :
    pyStr a ++ (".data") ≠ pyStr b ++ (".script") := by
  intro h
  have hd := congrArg (fun s : String => s.data.reverse.head?) h
  simp only [String.data_append, List.reverse_append] at hd
  have h1 : (".data").data.reverse = ['a', 't', 'a', 'd', '.'] := rfl
  have h2 : (".script").data.reverse = ['t', 'p', 'i', 'r', 'c', 's', '.'] := rfl
  rw [h1, h2] at hd
  simp at hd

/-- Metadata unit names are distinct across distinct identities. -/
theorem dataName_inj {a b : Nat} (h : pyStr a ++ (".data") = pyStr b ++ (".data")) :
    a = b :=
  pyStr_inj (append_right_cancel_str h)

/-- Script unit names are distinct across distinct identities. -/
theorem scriptName_inj {a b : Nat}
    (h : pyStr a ++ (".script") = pyStr b ++ (".script")) : a = b :=
  pyStr_inj (append_right_cancel_str h)

/-- A decimal name with any suffix still begins with a digit. -/
theorem startsWithDigit_pyStr_append (n : Nat) (s : String) :
    startsWithDigit (pyStr n ++ s) = true := by
  have hne := pyStrAux_ne_nil n
  have hdig := pyStrAux_all_digit n
  unfold startsWithDigit
  have htl : (pyStr n ++ s).toList = pyStrAux n ++ s.toList := by
    simp [String.toList, String.data_append, pyStr]
  rw [htl]
  match hm : pyStrAux n with
  | [] => exact absurd hm hne
  | c :: rest => exact hdig c (by rw [hm]; exact List.mem_cons_self c rest)

/-- Dropping a satisfied prefix continues into the tail. -/
theorem dropWhile_append_all {p : α → Bool} {l1 l2 : List α}
    (h : ∀ a ∈ l1, p a = true) :
    (l1 ++ l2).dropWhile p = l2.dropWhile p := by
  induction l1 with
  | nil => rfl
  | cons a rest ih =>
    rw [List.cons_append, List.dropWhile_cons_of_pos (h a (List.mem_cons_self a rest))]
    exact ih (fun a2 h2 => h a2 (List.mem_cons_of_mem a h2))

/-- Taking along a satisfied prefix keeps it whole. -/
theorem takeWhile_append_all {p : α → Bool} {l1 l2 : List α}
    (h : ∀ a ∈ l1, p a = true) :
    (l1 ++ l2).takeWhile p = l1 ++ l2.takeWhile p := by
  induction l1 with
  | nil => rfl
  | cons a rest ih =>
    rw [List.cons_append, List.takeWhile_cons_of_pos (h a (List.mem_cons_self a rest))]
    rw [ih (fun a2 h2 => h a2 (List.mem_cons_of_mem a h2))]
    rfl

/-- The stem of a decimal name with a single dotted suffix is the
decimal name, provided the suffix holds no further dot. -/
theorem pyStem_append_suffix (n : Nat) (t : List Char) (ht : t ≠ [])
    (hnd : ∀ c ∈ t, c ≠ '.') :
    pyStem (pyStr n ++ String.mk ('.' :: t)) = pyStr n := by
  have hne := pyStrAux_ne_nil n
  unfold pyStem
  have htl : (pyStr n ++ String.mk ('.' :: t)).toList.reverse
      = t.reverse ++ ('.' :: (pyStrAux n).reverse) := by
    show ((pyStr n).data ++ ('.' :: t)).reverse = _
    rw [List.reverse_append]
    simp [pyStr]
  have hall : ∀ c ∈ t.reverse, (fun c => decide (c ≠ '.')) c = true := by
    intro c hc
    simp only [ne_eq, decide_eq_true_eq]
    exact hnd c (List.mem_reverse.mp hc)
  have hdrop : (pyStr n ++ String.mk ('.' :: t)).toList.reverse.dropWhile
      (fun c => decide (c ≠ '.')) = '.' :: (pyStrAux n).reverse := by
    rw [htl, dropWhile_append_all hall, List.dropWhile_cons_of_neg (by simp)]
  have htake : (pyStr n ++ String.mk ('.' :: t)).toList.reverse.takeWhile
      (fun c => decide (c ≠ '.')) = t.reverse := by
    rw [htl, takeWhile_append_all hall, List.takeWhile_cons_of_neg (by simp)]
    simp
  simp only [hdrop, htake]
  rw [if_neg (by simpa using hne), if_neg (by simpa using ht)]
  simp [pyStr]

/-- The stem of a metadata unit name is the decimal identity. -/
theorem pyStem_dataName (n : Nat) : pyStem (pyStr n ++ (".data")) = pyStr n := by
  have : (".data" : String) = String.mk ('.' :: ['d', 'a', 't', 'a']) := rfl
  rw [this]
  exact pyStem_append_suffix n ['d', 'a', 't', 'a'] (by simp) (by decide)

/-- The stem of a script unit name is the decimal identity. -/
theorem pyStem_scriptName (n : Nat) : pyStem (pyStr n ++ (".script")) = pyStr n := by
  have : (".script" : String) = String.mk ('.' :: ['s', 'c', 'r', 'i', 'p', 't']) := rfl
  rw [this]
  exact pyStem_append_suffix n ['s', 'c', 'r', 'i', 'p', 't'] (by simp) (by decide)

/-- A unit step on one name leaves lookups and path counts of any other
name untouched. -/
theorem unitSave_other {changed : String → Bool} {fname : String} (newC : String)
    {entry : ChangeEntry} (store : List SFile) {g : String}
    (hne : fname ≠ g) (he : entry.file = fpath ("scripts") fname) :
    ((unitSave changed fname newC entry store).1.countP
        (fun e => e.file == fpath ("scripts") g) = 0)
    ∧ ((unitSave changed fname newC entry store).2.1.countP
        (fun e => e.file == fpath ("scripts") g) = 0)
    ∧ lookupFile (unitSave changed fname newC entry store).2.2 g
        = lookupFile store g := by
  have hpe : (entry.file == fpath ("scripts") g) = false := by
    simp only [beq_eq_false_iff_ne, ne_eq, he]
    intro hc
    exact hne (fpath_inj hc)
  unfold unitSave
  cases hl : lookupFile store fname with
  | some f =>
    dsimp only
    by_cases hc : changed f.content = true
    · rw [if_pos hc]
      exact ⟨by simp [hpe], rfl, lookupFile_update_ne store newC hne⟩
    · rw [if_neg hc]
      exact ⟨rfl, rfl, rfl⟩
  | none =>
    dsimp only
    exact ⟨rfl, by simp [hpe], lookupFile_create_ne store newC hne⟩

/-- A unit step whose change predicate fires on the found file logs
exactly one diff entry and rewrites the file. -/
theorem unitSave_hit_changed {changed : String → Bool} {fname : String}
    (newC : String) {entry : ChangeEntry} {store : List SFile} {f : SFile}
    (hl : lookupFile store fname = some f) (hc : changed f.content = true)
    (he : entry.file = fpath ("scripts") fname) :
    ((unitSave changed fname newC entry store).1.countP
        (fun e => e.file == fpath ("scripts") fname) = 1)
    ∧ ((unitSave changed fname newC entry store).2.1.countP
        (fun e => e.file == fpath ("scripts") fname) = 0)
    ∧ lookupFile (unitSave changed fname newC entry store).2.2 fname
        = some { name := fname, content := newC } := by
  unfold unitSave
  rw [hl]
  dsimp only
  rw [if_pos hc]
  exact ⟨by simp [he], rfl, lookupFile_update_eq newC hl⟩

/-- A unit step whose change predicate does not fire logs nothing and
leaves the store untouched. -/
theorem unitSave_hit_unchanged {changed : String → Bool} {fname : String}
    (newC : String) {entry : ChangeEntry} {store : List SFile} {f : SFile}
    (hl : lookupFile store fname = some f) (hc : ¬changed f.content = true) :
    unitSave changed fname newC entry store = ([], [], store) := by
  unfold unitSave
  rw [hl]
  dsimp only
  rw [if_neg hc]

/-- A unit step on an absent file logs exactly one add entry and creates
the file with the new content. -/
theorem unitSave_absent {changed : String → Bool} {fname : String}
    (newC : String) {entry : ChangeEntry} {store : List SFile}
    (hl : lookupFile store fname = none)
    (he : entry.file = fpath ("scripts") fname) :
    ((unitSave changed fname newC entry store).1.countP
        (fun e => e.file == fpath ("scripts") fname) = 0)
    ∧ ((unitSave changed fname newC entry store).2.1.countP
        (fun e => e.file == fpath ("scripts") fname) = 1)
    ∧ lookupFile (unitSave changed fname newC entry store).2.2 fname
        = some { name := fname, content := newC } := by
  unfold unitSave
  rw [hl]
  dsimp only
  exact ⟨rfl, by simp [he], lookupFile_create_eq newC hl⟩

/-- Names present after a unit step: an original name or the unit's
name. -/
theorem unitSave_names {changed : String → Bool} {fname newC : String}
    {entry : ChangeEntry} {store : List SFile} {f2 : SFile}
    (h : f2 ∈ (unitSave changed fname newC entry store).2.2) :
    f2.name ∈ store.map (fun g => g.name) ∨ f2.name = fname := by
  unfold unitSave at h
  cases hl : lookupFile store fname with
  | some f =>
    rw [hl] at h
    dsimp only at h
    by_cases hc : changed f.content = true
    · rw [if_pos hc] at h
      unfold updateFile at h
      rcases List.mem_map.mp h with ⟨g, hg, hgf⟩
      by_cases hgn : g.name = fname
      · right
        rw [← hgf]
        simp [hgn]
      · left
        rw [← hgf]
        have hb : (g.name == fname) = false := by simp [hgn]
        simp only [hb, Bool.false_eq_true, if_false]
        exact List.mem_map_of_mem (fun g => g.name) hg
    · rw [if_neg hc] at h
      exact Or.inl (List.mem_map_of_mem (fun g => g.name) h)
  | none =>
    rw [hl] at h
    dsimp only at h
    unfold createFile at h
    rcases List.mem_append.mp h with h | h
    · exact Or.inl (List.mem_map_of_mem (fun g => g.name) h)
    · right
      simp only [List.mem_singleton] at h
      rw [h]

/-- The metadata unit step leaves any other name untouched. -/
theorem scriptsDataStep_other (o : ScriptRec) (store : List SFile) {g : String}
    (hne : pyStr o.id ++ (".data") ≠ g) :
    ((scriptsDataStep o store).1.countP
        (fun e => e.file == fpath ("scripts") g) = 0)
    ∧ ((scriptsDataStep o store).2.1.countP
        (fun e => e.file == fpath ("scripts") g) = 0)
    ∧ lookupFile (scriptsDataStep o store).2.2 g = lookupFile store g :=
  unitSave_other o.dataCanon store hne rfl

/-- The script unit step leaves any other name untouched. -/
theorem scriptsScriptStep_other (o : ScriptRec) (store : List SFile) {g : String}
    (hne : pyStr o.id ++ (".script") ≠ g) :
    ((scriptsScriptStep o store).1.countP
        (fun e => e.file == fpath ("scripts") g) = 0)
    ∧ ((scriptsScriptStep o store).2.1.countP
        (fun e => e.file == fpath ("scripts") g) = 0)
    ∧ lookupFile (scriptsScriptStep o store).2.2 g = lookupFile store g :=
  unitSave_other o.script store hne rfl

/-- The scripts save loop never logs an entry for, nor touches, a name
that no fetched object's units bear. -/
theorem scriptsSave_untouched (objs : List ScriptRec) :
    ∀ (store : List SFile) (g : String),
      (∀ o ∈ objs, pyStr o.id ++ (".data") ≠ g ∧ pyStr o.id ++ (".script") ≠ g) →
      ((scriptsSave objs store).1.countP
          (fun e => e.file == fpath ("scripts") g) = 0)
      ∧ ((scriptsSave objs store).2.1.countP
          (fun e => e.file == fpath ("scripts") g) = 0)
      ∧ lookupFile (scriptsSave objs store).2.2 g = lookupFile store g := by
  induction objs with
  | nil => intro store g _; exact ⟨rfl, rfl, rfl⟩
  | cons o rest ih =>
    intro store g h
    have ho := h o (List.mem_cons_self o rest)
    have hrest := fun o2 h2 => h o2 (List.mem_cons_of_mem o h2)
    have hD := scriptsDataStep_other o store ho.1
    have hS := scriptsScriptStep_other o (scriptsDataStep o store).2.2 ho.2
    have hout := ih (scriptsScriptStep o (scriptsDataStep o store).2.2).2.2 g hrest
    unfold scriptsSave
    dsimp only
    rw [List.countP_append, List.countP_append, List.countP_append, List.countP_append]
    refine ⟨?_, ?_, ?_⟩
    · rw [hD.1, hS.1, hout.1]
    · rw [hD.2.1, hS.2.1, hout.2.1]
    · rw [hout.2.2, hS.2.2, hD.2.2]

/-- Script unit: stored lines differ, so the unit is rewritten. -/
theorem scriptsScriptStep_changed (o : ScriptRec) (store : List SFile) {f : SFile}
    (hl : lookupFile store (pyStr o.id ++ (".script")) = some f)
    (hne : pySplitlines f.content ≠ pySplitlines o.script) :
    ((scriptsScriptStep o store).1.countP
        (fun e => e.file == fpath ("scripts") (pyStr o.id ++ (".script"))) = 1)
    ∧ ((scriptsScriptStep o store).2.1.countP
        (fun e => e.file == fpath ("scripts") (pyStr o.id ++ (".script"))) = 0)
    ∧ lookupFile (scriptsScriptStep o store).2.2 (pyStr o.id ++ (".script"))
        = some { name := pyStr o.id ++ (".script"), content := o.script } :=
  unitSave_hit_changed o.script hl (by simp only [bne_iff_ne, ne_eq]; simpa using hne) rfl

/-- Script unit: stored lines agree, so nothing happens. -/
theorem scriptsScriptStep_unchanged (o : ScriptRec) (store : List SFile) {f : SFile}
    (hl : lookupFile store (pyStr o.id ++ (".script")) = some f)
    (heq : pySplitlines f.content = pySplitlines o.script) :
    scriptsScriptStep o store = ([], [], store) :=
  unitSave_hit_unchanged o.script hl (by simp [heq])

/-- Script unit: file absent, so it is created. -/
theorem scriptsScriptStep_absent (o : ScriptRec) (store : List SFile)
    (hl : lookupFile store (pyStr o.id ++ (".script")) = none) :
    ((scriptsScriptStep o store).1.countP
        (fun e => e.file == fpath ("scripts") (pyStr o.id ++ (".script"))) = 0)
    ∧ ((scriptsScriptStep o store).2.1.countP
        (fun e => e.file == fpath ("scripts") (pyStr o.id ++ (".script"))) = 1)
    ∧ lookupFile (scriptsScriptStep o store).2.2 (pyStr o.id ++ (".script"))
        = some { name := pyStr o.id ++ (".script"), content := o.script } :=
  unitSave_absent o.script hl rfl

/-- Metadata unit: stored bytes differ, so the unit is rewritten. -/
theorem scriptsDataStep_changed (o : ScriptRec) (store : List SFile) {f : SFile}
    (hl : lookupFile store (pyStr o.id ++ (".data")) = some f)
    (hne : f.content ≠ o.dataCanon) :
    ((scriptsDataStep o store).1.countP
        (fun e => e.file == fpath ("scripts") (pyStr o.id ++ (".data"))) = 1)
    ∧ ((scriptsDataStep o store).2.1.countP
        (fun e => e.file == fpath ("scripts") (pyStr o.id ++ (".data"))) = 0)
    ∧ lookupFile (scriptsDataStep o store).2.2 (pyStr o.id ++ (".data"))
        = some { name := pyStr o.id ++ (".data"), content := o.dataCanon } :=
  unitSave_hit_changed o.dataCanon hl (by simp only [bne_iff_ne, ne_eq]; simpa using hne) rfl

/-- Metadata unit: stored bytes agree, so nothing happens. -/
theorem scriptsDataStep_unchanged (o : ScriptRec) (store : List SFile) {f : SFile}
    (hl : lookupFile store (pyStr o.id ++ (".data")) = some f)
    (heq : f.content = o.dataCanon) :
    scriptsDataStep o store = ([], [], store) :=
  unitSave_hit_unchanged o.dataCanon hl (by simp [heq])

/-- Metadata unit: file absent, so it is created. -/
theorem scriptsDataStep_absent (o : ScriptRec) (store : List SFile)
    (hl : lookupFile store (pyStr o.id ++ (".data")) = none) :
    ((scriptsDataStep o store).1.countP
        (fun e => e.file == fpath ("scripts") (pyStr o.id ++ (".data"))) = 0)
    ∧ ((scriptsDataStep o store).2.1.countP
        (fun e => e.file == fpath ("scripts") (pyStr o.id ++ (".data"))) = 1)
    ∧ lookupFile (scriptsDataStep o store).2.2 (pyStr o.id ++ (".data"))
        = some { name := pyStr o.id ++ (".data"), content := o.dataCanon } :=
  unitSave_absent o.dataCanon hl rfl

/-- Specification of the scripts save loop at one fetched object's
script unit, identities pairwise distinct: the unit is rewritten with
exactly one diff entry exactly when the stored and fetched line
sequences differ; otherwise nothing is logged and the file is left as
is. -/
theorem scriptsSave_script_spec (objs : List ScriptRec) :
    ∀ (store : List SFile) (o : ScriptRec) (f : SFile),
      o ∈ objs → (objs.map (fun x => pyStr x.id)).Nodup →
      lookupFile store (pyStr o.id ++ (".script")) = some f →
      ((pySplitlines f.content ≠ pySplitlines o.script →
          ((scriptsSave objs store).1.countP
              (fun e => e.file == fpath ("scripts") (pyStr o.id ++ (".script"))) = 1)
          ∧ ((scriptsSave objs store).2.1.countP
              (fun e => e.file == fpath ("scripts") (pyStr o.id ++ (".script"))) = 0)
          ∧ lookupFile (scriptsSave objs store).2.2 (pyStr o.id ++ (".script"))
              = some { name := pyStr o.id ++ (".script"), content := o.script })
       ∧ (pySplitlines f.content = pySplitlines o.script →
          ((scriptsSave objs store).1.countP
              (fun e => e.file == fpath ("scripts") (pyStr o.id ++ (".script"))) = 0)
          ∧ ((scriptsSave objs store).2.1.countP
              (fun e => e.file == fpath ("scripts") (pyStr o.id ++ (".script"))) = 0)
          ∧ lookupFile (scriptsSave objs store).2.2 (pyStr o.id ++ (".script"))
              = some f)) := by
  induction objs with
  | nil =>
    intro store o f ho
    cases ho
  | cons o0 rest ih =>
    intro store o f ho hnd hl
    have hnd0 : pyStr o0.id ∉ rest.map (fun x => pyStr x.id) :=
      (List.nodup_cons.mp hnd).1
    have hndr : (rest.map (fun x => pyStr x.id)).Nodup :=
      (List.nodup_cons.mp hnd).2
    rcases List.mem_cons.mp ho with rfl | hmem
    · -- the object at the head owns the unit
      have hrest : ∀ o2 ∈ rest, pyStr o2.id ++ (".data") ≠ pyStr o.id ++ (".script")
          ∧ pyStr o2.id ++ (".script") ≠ pyStr o.id ++ (".script") := by
        intro o2 h2
        refine ⟨dataName_ne_scriptName o2.id o.id, ?_⟩
        intro hc
        have : pyStr o2.id = pyStr o.id := append_right_cancel_str hc
        exact hnd0 (this ▸ List.mem_map_of_mem (fun x => pyStr x.id) h2)
      have hD := scriptsDataStep_other o store (dataName_ne_scriptName o.id o.id)
      have hlD : lookupFile (scriptsDataStep o store).2.2 (pyStr o.id ++ (".script"))
          = some f := by rw [hD.2.2]; exact hl
      constructor
      · intro hne
        have hS := scriptsScriptStep_changed o (scriptsDataStep o store).2.2 hlD hne
        have hout := scriptsSave_untouched rest
          (scriptsScriptStep o (scriptsDataStep o store).2.2).2.2
          (pyStr o.id ++ (".script")) hrest
        unfold scriptsSave
        dsimp only
        rw [List.countP_append, List.countP_append, List.countP_append,
          List.countP_append]
        refine ⟨?_, ?_, ?_⟩
        · rw [hD.1, hS.1, hout.1]
        · rw [hD.2.1, hS.2.1, hout.2.1]
        · rw [hout.2.2, hS.2.2]
      · intro heq
        have hSeq := scriptsScriptStep_unchanged o (scriptsDataStep o store).2.2 hlD heq
        have hout := scriptsSave_untouched rest (scriptsDataStep o store).2.2
          (pyStr o.id ++ (".script")) hrest
        unfold scriptsSave
        dsimp only
        rw [hSeq]
        dsimp only
        rw [List.countP_append, List.countP_append, List.countP_append,
          List.countP_append]
        refine ⟨?_, ?_, ?_⟩
        · rw [hD.1, hout.1]
          rfl
        · rw [hD.2.1, hout.2.1]
          rfl
        · rw [hout.2.2, hlD]
    · -- the object sits further along the fetch order
      have hne0 : pyStr o0.id ≠ pyStr o.id := by
        intro hc
        exact hnd0 (hc ▸ List.mem_map_of_mem (fun x => pyStr x.id) hmem)
      have hD := scriptsDataStep_other o0 store (dataName_ne_scriptName o0.id o.id)
      have hneS : pyStr o0.id ++ (".script") ≠ pyStr o.id ++ (".script") := by
        intro hc
        exact hne0 (append_right_cancel_str hc)
      have hS := scriptsScriptStep_other o0 (scriptsDataStep o0 store).2.2 hneS
      have hl2 : lookupFile (scriptsScriptStep o0 (scriptsDataStep o0 store).2.2).2.2
          (pyStr o.id ++ (".script")) = some f := by
        rw [hS.2.2, hD.2.2]; exact hl
      have ihr := ih (scriptsScriptStep o0 (scriptsDataStep o0 store).2.2).2.2
        o f hmem hndr hl2
      unfold scriptsSave
      dsimp only
      rw [List.countP_append, List.countP_append, List.countP_append,
        List.countP_append]
      constructor
      · intro hne
        have h := ihr.1 hne
        exact ⟨by rw [hD.1, hS.1, h.1], by rw [hD.2.1, hS.2.1, h.2.1], h.2.2⟩
      · intro heq
        have h := ihr.2 heq
        exact ⟨by rw [hD.1, hS.1, h.1], by rw [hD.2.1, hS.2.1, h.2.1], h.2.2⟩

/-- After the scripts save loop, each fetched object's metadata unit
holds the canonical bytes and its script unit holds bytes with the
fetched line sequence. -/
theorem scriptsSave_post (objs : List ScriptRec) :
    ∀ (store : List SFile) (o : ScriptRec),
      o ∈ objs → (objs.map (fun x => pyStr x.id)).Nodup →
      (∃ f, lookupFile (scriptsSave objs store).2.2 (pyStr o.id ++ (".data")) = some f
          ∧ f.content = o.dataCanon)
      ∧ (∃ f, lookupFile (scriptsSave objs store).2.2 (pyStr o.id ++ (".script")) = some f
          ∧ pySplitlines f.content = pySplitlines o.script) := by
  induction objs with
  | nil =>
    intro store o ho
    cases ho
  | cons o0 rest ih =>
    intro store o ho hnd
    have hnd0 : pyStr o0.id ∉ rest.map (fun x => pyStr x.id) :=
      (List.nodup_cons.mp hnd).1
    have hndr : (rest.map (fun x => pyStr x.id)).Nodup :=
      (List.nodup_cons.mp hnd).2
    rcases List.mem_cons.mp ho with rfl | hmem
    · have hrestD : ∀ o2 ∈ rest, pyStr o2.id ++ (".data") ≠ pyStr o.id ++ (".data")
          ∧ pyStr o2.id ++ (".script") ≠ pyStr o.id ++ (".data") := by
        intro o2 h2
        constructor
        · intro hc
          have : pyStr o2.id = pyStr o.id := append_right_cancel_str hc
          exact hnd0 (this ▸ List.mem_map_of_mem (fun x => pyStr x.id) h2)
        · exact Ne.symm (dataName_ne_scriptName o.id o2.id)
      have hrestS : ∀ o2 ∈ rest, pyStr o2.id ++ (".data") ≠ pyStr o.id ++ (".script")
          ∧ pyStr o2.id ++ (".script") ≠ pyStr o.id ++ (".script") := by
        intro o2 h2
        refine ⟨dataName_ne_scriptName o2.id o.id, ?_⟩
        intro hc
        have : pyStr o2.id = pyStr o.id := append_right_cancel_str hc
        exact hnd0 (this ▸ List.mem_map_of_mem (fun x => pyStr x.id) h2)
      have hDpost : ∃ f2, lookupFile (scriptsDataStep o store).2.2
          (pyStr o.id ++ (".data")) = some f2 ∧ f2.content = o.dataCanon := by
        cases hlD : lookupFile store (pyStr o.id ++ (".data")) with
        | some fD =>
          by_cases hcD : fD.content = o.dataCanon
          · rw [scriptsDataStep_unchanged o store hlD hcD]
            exact ⟨fD, hlD, hcD⟩
          · exact ⟨_, (scriptsDataStep_changed o store hlD hcD).2.2, rfl⟩
        | none => exact ⟨_, (scriptsDataStep_absent o store hlD).2.2, rfl⟩
      have hSother := scriptsScriptStep_other o (scriptsDataStep o store).2.2
        (Ne.symm (dataName_ne_scriptName o.id o.id))
      have hDother := scriptsDataStep_other o store (dataName_ne_scriptName o.id o.id)
      have hSpost : ∃ f2, lookupFile
          (scriptsScriptStep o (scriptsDataStep o store).2.2).2.2
          (pyStr o.id ++ (".script")) = some f2
          ∧ pySplitlines f2.content = pySplitlines o.script := by
        cases hlS : lookupFile store (pyStr o.id ++ (".script")) with
        | some fS =>
          have hlS2 : lookupFile (scriptsDataStep o store).2.2
              (pyStr o.id ++ (".script")) = some fS := by rw [hDother.2.2]; exact hlS
          by_cases hcS : pySplitlines fS.content = pySplitlines o.script
          · rw [scriptsScriptStep_unchanged o (scriptsDataStep o store).2.2 hlS2 hcS]
            exact ⟨fS, hlS2, hcS⟩
          · exact ⟨_, (scriptsScriptStep_changed o (scriptsDataStep o store).2.2
              hlS2 hcS).2.2, rfl⟩
        | none =>
          have hlS2 : lookupFile (scriptsDataStep o store).2.2
              (pyStr o.id ++ (".script")) = none := by rw [hDother.2.2]; exact hlS
          exact ⟨_, (scriptsScriptStep_absent o (scriptsDataStep o store).2.2 hlS2).2.2, rfl⟩
      have houtD := scriptsSave_untouched rest
        (scriptsScriptStep o (scriptsDataStep o store).2.2).2.2
        (pyStr o.id ++ (".data")) hrestD
      have houtS := scriptsSave_untouched rest
        (scriptsScriptStep o (scriptsDataStep o store).2.2).2.2
        (pyStr o.id ++ (".script")) hrestS
      unfold scriptsSave
      dsimp only
      constructor
      · rcases hDpost with ⟨f2, hf2, hc2⟩
        exact ⟨f2, by rw [houtD.2.2, hSother.2.2]; exact hf2, hc2⟩
      · rcases hSpost with ⟨f2, hf2, hc2⟩
        exact ⟨f2, by rw [houtS.2.2]; exact hf2, hc2⟩
    · unfold scriptsSave
      dsimp only
      exact ih _ o hmem hndr

/-- A store already synchronized with the fetched scripts passes through
the scripts save loop unchanged, with nothing logged. -/
theorem scriptsSave_noop (objs : List ScriptRec) :
    ∀ (store : List SFile),
      (∀ o ∈ objs,
        (∃ f, lookupFile store (pyStr o.id ++ (".data")) = some f
            ∧ f.content = o.dataCanon)
        ∧ (∃ f, lookupFile store (pyStr o.id ++ (".script")) = some f
            ∧ pySplitlines f.content = pySplitlines o.script)) →
      scriptsSave objs store = ([], [], store) := by
  induction objs with
  | nil => intro store _; rfl
  | cons o rest ih =>
    intro store h
    rcases h o (List.mem_cons_self o rest) with ⟨⟨fD, hlD, hcD⟩, ⟨fS, hlS, hcS⟩⟩
    have hrest := fun o2 h2 => h o2 (List.mem_cons_of_mem o h2)
    unfold scriptsSave
    dsimp only
    rw [scriptsDataStep_unchanged o store hlD hcD]
    dsimp only
    rw [scriptsScriptStep_unchanged o store hlS hcS]
    dsimp only
    rw [ih store hrest]
    rfl

/-- Names present after a unit step, name form. -/
theorem unitSave_names_mem {changed : String → Bool} {fname newC : String}
    {entry : ChangeEntry} {store : List SFile} {name : String}
    (h : name ∈ ((unitSave changed fname newC entry store).2.2).map (fun g => g.name)) :
    name ∈ store.map (fun g => g.name) ∨ name = fname := by
  rcases List.mem_map.mp h with ⟨g, hg, hgn⟩
  rcases unitSave_names hg with hin | heq
  · exact Or.inl (hgn ▸ hin)
  · exact Or.inr (hgn ▸ heq)

/-- Names present after the scripts save loop: an original listing name
or a unit name of a fetched object. -/
theorem scriptsSave_names (objs : List ScriptRec) :
    ∀ (store : List SFile) (f2 : SFile),
      f2 ∈ (scriptsSave objs store).2.2 →
      f2.name ∈ store.map (fun g => g.name)
      ∨ ∃ o ∈ objs, f2.name = pyStr o.id ++ (".data")
          ∨ f2.name = pyStr o.id ++ (".script") := by
  induction objs with
  | nil =>
    intro store f2 h
    exact Or.inl (List.mem_map_of_mem (fun g => g.name) h)
  | cons o rest ih =>
    intro store f2 h
    unfold scriptsSave at h
    dsimp only at h
    rcases ih _ f2 h with hin | ⟨o2, ho2, hor⟩
    · have h1 : f2.name ∈ ((scriptsDataStep o store).2.2).map (fun g => g.name)
          ∨ f2.name = pyStr o.id ++ (".script") := by
        unfold scriptsScriptStep at hin
        exact unitSave_names_mem hin
      rcases h1 with h1 | h1
      · have h2 : f2.name ∈ store.map (fun g => g.name)
            ∨ f2.name = pyStr o.id ++ (".data") := by
          unfold scriptsDataStep at h1
          exact unitSave_names_mem h1
        rcases h2 with h2 | h2
        · exact Or.inl h2
        · exact Or.inr ⟨o, List.mem_cons_self o rest, Or.inl h2⟩
      · exact Or.inr ⟨o, List.mem_cons_self o rest, Or.inr h1⟩
    · exact Or.inr ⟨o2, List.mem_cons_of_mem o ho2, hor⟩

/-- A store already synchronized with the fetched categories passes
through the categories save loop unchanged, with nothing logged. -/
theorem categoriesSave_noop (objs : List FetchedRec) :
    ∀ (store : List SFile),
      (∀ o ∈ objs, ∃ f, lookupFile store (pyStr o.id) = some f
          ∧ f.content = o.canon) →
      categoriesSave objs store = ([], [], store) := by
  induction objs with
  | nil => intro store _; rfl
  | cons o rest ih =>
    intro store h
    rcases h o (List.mem_cons_self o rest) with ⟨f, hl, hc⟩
    have hrest := fun o2 h2 => h o2 (List.mem_cons_of_mem o h2)
    unfold categoriesSave
    simp only [hl]
    rw [if_neg (by simp [hc])]
    exact ih store hrest

/-- A digit-leading file of a successfully scanned listing either
matches a fetched id, or is represented among the scan's entries. -/
theorem removeScan_mem_cases {nameOf : SFile → Except PyErr String}
    {m : String} {ids : List Nat} :
    ∀ {store : List SFile} {l : List ChangeEntry},
      removeScan nameOf m ids store = Except.ok l →
      ∀ g ∈ store, startsWithDigit g.name = true →
      noFetchedMatch ids (pyStem g.name) = Except.ok false
      ∨ (noFetchedMatch ids (pyStem g.name) = Except.ok true
          ∧ ∃ e ∈ l, e.file = fpath m g.name) := by
  intro store
  induction store with
  | nil =>
    intro l _ g hg
    cases hg
  | cons f rest ih =>
    intro l h g hg hdg
    unfold removeScan at h
    by_cases hd : startsWithDigit f.name
    · rw [if_pos hd] at h
      cases hfm : noFetchedMatch ids (pyStem f.name) with
      | error e2 => rw [hfm] at h; cases h
      | ok b =>
        rw [hfm] at h
        cases b with
        | true =>
          cases hnm : nameOf f with
          | error e2 => rw [hnm] at h; cases h
          | ok nm =>
            rw [hnm] at h
            cases hsc : removeScan nameOf m ids rest with
            | error e2 => rw [hsc] at h; cases h
            | ok tail =>
              rw [hsc] at h
              simp only [bind, Except.bind] at h
              cases h
              rcases List.mem_cons.mp hg with rfl | hmem
              · exact Or.inr ⟨hfm, ⟨_, List.mem_cons_self _ tail, rfl⟩⟩
              · rcases ih hsc g hmem hdg with hcase | ⟨hfmg, e, he, hef⟩
                · exact Or.inl hcase
                · exact Or.inr ⟨hfmg, e, List.mem_cons_of_mem _ he, hef⟩
        | false =>
          rcases List.mem_cons.mp hg with rfl | hmem
          · exact Or.inl hfm
          · exact ih h g hmem hdg
    · rw [if_neg hd] at h
      rcases List.mem_cons.mp hg with rfl | hmem
      · rw [hdg] at hd
        exact absurd rfl hd
      · exact ih h g hmem hdg

/-- After the categories save loop, each fetched object's file holds the
canonical bytes. -/
theorem categoriesSave_post (objs : List FetchedRec) (store : List SFile)
    (o : FetchedRec) (ho : o ∈ objs)
    (hnd : (objs.map (fun x => pyStr x.id)).Nodup) :
    ∃ f, lookupFile (categoriesSave objs store).2.2 (pyStr o.id) = some f
        ∧ f.content = o.canon := by
  cases hl : lookupFile store (pyStr o.id) with
  | none =>
    exact ⟨_, ((categoriesSave_spec objs store o ho hnd).2.2 hl).2.2, rfl⟩
  | some f =>
    by_cases hc : f.content = o.canon
    · exact ⟨f, ((categoriesSave_spec objs store o ho hnd).2.1 f hl hc).2.2, hc⟩
    · exact ⟨_, ((categoriesSave_spec objs store o ho hnd).1 f hl hc).2.2, rfl⟩

/-- Decomposition of a successful categories module body. -/
theorem categoriesRun_ok {loadName : String → Except PyErr String}
    {objs : List FetchedRec} {store : List SFile} {log : ModuleLog}
    {st : List SFile}
    (h : categoriesRun loadName objs store = Except.ok (log, st)) :
    removeScan (fun f => loadName f.content) ("categories")
        (objs.map (fun o => o.id)) store = Except.ok log.remove
    ∧ log.diff = (categoriesSave objs store).1
    ∧ log.add = (categoriesSave objs store).2.1
    ∧ st = (categoriesSave objs store).2.2 := by
  unfold categoriesRun at h
  cases hsc : removeScan (fun f => loadName f.content) ("categories")
      (objs.map (fun o => o.id)) store with
  | error e =>
    rw [hsc] at h
    cases h
  | ok removes =>
    rw [hsc] at h
    dsimp only at h
    injection h with h1
    cases h1
    exact ⟨rfl, rfl, rfl, rfl⟩

/-- Decomposition of a successful scripts module body. -/
theorem scriptsRun_ok {loadName : String → Except PyErr String}
    {objs : List ScriptRec} {store : List SFile} {log : ModuleLog}
    {st : List SFile}
    (h : scriptsRun loadName objs store = Except.ok (log, st)) :
    removeScan (scriptsNameOf loadName) ("scripts")
        (objs.map (fun o => o.id)) store = Except.ok log.remove
    ∧ log.diff = (scriptsSave objs store).1
    ∧ log.add = (scriptsSave objs store).2.1
    ∧ st = (scriptsSave objs store).2.2 := by
  unfold scriptsRun at h
  cases hsc : removeScan (scriptsNameOf loadName) ("scripts")
      (objs.map (fun o => o.id)) store with
  | error e =>
    rw [hsc] at h
    cases h
  | ok removes =>
    rw [hsc] at h
    dsimp only at h
    injection h with h1
    cases h1
    exact ⟨rfl, rfl, rfl, rfl⟩

/-- Filtering a module-tagged flatMap block down to one module key keeps
exactly that module's block, keys being distinct. -/
theorem filter_flatMap_module (proj : ModuleLog → List ChangeEntry) (k : CommitKind) :
    ∀ (logs : List (String × ModuleLog)) (m : String) (log : ModuleLog),
      (m, log) ∈ logs → (logs.map (fun ml => ml.1)).Nodup →
      (logs.flatMap (fun ml => (proj ml.2).map (fun e => (ml.1, k, e)))).filter
          (fun t => t.1 == m)
        = (proj log).map (fun e => (m, k, e)) := by
  intro logs
  induction logs with
  | nil =>
    intro m log hmem
    cases hmem
  | cons ml0 rest ih =>
    intro m log hmem hnd
    have hnd0 : ml0.1 ∉ rest.map (fun ml => ml.1) := (List.nodup_cons.mp hnd).1
    have hndr : (rest.map (fun ml => ml.1)).Nodup := (List.nodup_cons.mp hnd).2
    rw [List.flatMap_cons, List.filter_append]
    rcases List.mem_cons.mp hmem with rfl | hmem2
    · have hhead : ((proj log).map (fun e => (m, k, e))).filter (fun t => t.1 == m)
          = (proj log).map (fun e => (m, k, e)) := by
        rw [List.filter_eq_self]
        intro t ht
        rcases List.mem_map.mp ht with ⟨e, _, het⟩
        rw [← het]
        simp
      have hrest : (rest.flatMap (fun ml => (proj ml.2).map
          (fun e => (ml.1, k, e)))).filter (fun t => t.1 == m) = [] := by
        rw [List.filter_eq_nil_iff]
        intro t ht
        rcases List.mem_flatMap.mp ht with ⟨ml2, hml2, hin⟩
        rcases List.mem_map.mp hin with ⟨e, _, het⟩
        rw [← het]
        simp only [beq_iff_eq]
        intro hc
        exact hnd0 (hc ▸ List.mem_map_of_mem (fun ml => ml.1) hml2)
      rw [hhead, hrest, List.append_nil]
    · have hne : ml0.1 ≠ m := by
        intro hc
        apply hnd0
        rw [hc]
        exact List.mem_map_of_mem (fun ml => ml.1) hmem2
      have hhead : ((proj ml0.2).map (fun e => (ml0.1, k, e))).filter
          (fun t => t.1 == m) = [] := by
        rw [List.filter_eq_nil_iff]
        intro t ht
        rcases List.mem_map.mp ht with ⟨e, _, het⟩
        rw [← het]
        simpa using hne
      rw [hhead, List.nil_append]
      exact ih m log hmem2 hndr

/-- Diff and add entries of the categories save loop form subsequences
of the fetch order: no re-sorting. -/
theorem categoriesSave_sublists (objs : List FetchedRec) :
    ∀ (store : List SFile),
      ((categoriesSave objs store).1.Sublist
        (objs.map (fun o => (⟨o.name, pyStr o.id,
          fpath ("categories") (pyStr o.id)⟩ : ChangeEntry))))
      ∧ ((categoriesSave objs store).2.1.Sublist
        (objs.map (fun o => (⟨o.name, pyStr o.id,
          fpath ("categories") (pyStr o.id)⟩ : ChangeEntry)))) := by
  induction objs with
  | nil =>
    intro store
    exact ⟨List.Sublist.refl [], List.Sublist.refl []⟩
  | cons o rest ih =>
    intro store
    cases hl : lookupFile store (pyStr o.id) with
    | some f =>
      by_cases hc : f.content = o.canon
      · unfold categoriesSave
        simp only [hl]
        rw [if_neg (by simp [hc])]
        exact ⟨List.Sublist.cons _ (ih store).1, List.Sublist.cons _ (ih store).2⟩
      · unfold categoriesSave
        simp only [hl]
        rw [if_pos hc]
        exact ⟨List.Sublist.cons₂ _ (ih _).1, List.Sublist.cons _ (ih _).2⟩
    | none =>
      unfold categoriesSave
      simp only [hl]
      exact ⟨List.Sublist.cons _ (ih _).1, List.Sublist.cons₂ _ (ih _).2⟩

/-- The remove entries of a successful scan list their file paths in
directory-listing order: a subsequence of the listing. -/
theorem removeScan_sublist {nameOf : SFile → Except PyErr String} {m : String}
    {ids : List Nat} :
    ∀ {store : List SFile} {l : List ChangeEntry},
      removeScan nameOf m ids store = Except.ok l →
      (l.map (fun e => e.file)).Sublist (store.map (fun g => fpath m g.name)) := by
  intro store
  induction store with
  | nil =>
    intro l h
    cases h
    exact List.Sublist.refl []
  | cons f rest ih =>
    intro l h
    unfold removeScan at h
    by_cases hd : startsWithDigit f.name
    · rw [if_pos hd] at h
      cases hfm : noFetchedMatch ids (pyStem f.name) with
      | error e2 => rw [hfm] at h; cases h
      | ok b =>
        rw [hfm] at h
        cases b with
        | true =>
          cases hnm : nameOf f with
          | error e2 => rw [hnm] at h; cases h
          | ok nm =>
            rw [hnm] at h
            cases hsc : removeScan nameOf m ids rest with
            | error e2 => rw [hsc] at h; cases h
            | ok tail =>
              rw [hsc] at h
              simp only [bind, Except.bind] at h
              cases h
              exact List.Sublist.cons₂ _ (ih hsc)
        | false => exact List.Sublist.cons _ (ih h)
    · rw [if_neg hd] at h
      exact List.Sublist.cons _ (ih h)

/-- A file whose name no fetched object bears passes through the save
loop as the same file. -/
theorem categoriesSave_mem_preserved (objs : List FetchedRec) :
    ∀ (store : List SFile) (f : SFile),
      (∀ o ∈ objs, pyStr o.id ≠ f.name) → f ∈ store →
      f ∈ (categoriesSave objs store).2.2 := by
  induction objs with
  | nil =>
    intro store f _ hf
    exact hf
  | cons o rest ih =>
    intro store f h hf
    have hno : pyStr o.id ≠ f.name := h o (List.mem_cons_self o rest)
    have hrest := fun o2 h2 => h o2 (List.mem_cons_of_mem o h2)
    cases hl : lookupFile store (pyStr o.id) with
    | some g =>
      by_cases hc : g.content = o.canon
      · unfold categoriesSave
        simp only [hl]
        rw [if_neg (by simp [hc])]
        exact ih store f hrest hf
      · unfold categoriesSave
        simp only [hl]
        rw [if_pos hc]
        apply ih _ f hrest
        unfold updateFile
        have : f = (fun f2 : SFile =>
            if f2.name == pyStr o.id then { f2 with content := o.canon } else f2) f := by
          have hb : (f.name == pyStr o.id) = false := by
            simp only [beq_eq_false_iff_ne, ne_eq]
            intro hc2
            exact hno hc2.symm
          simp [hb]
        rw [this]
        exact List.mem_map_of_mem _ hf
    | none =>
      unfold categoriesSave
      simp only [hl]
      apply ih _ f hrest
      unfold createFile
      exact List.mem_append.mpr (Or.inl hf)

/-- A file matching none of the remove entries survives the removal
pass as the same file. -/
theorem removalStep_mem_keep {gitRmOk : String → Bool} {m : String} :
    ∀ {entries : List ChangeEntry} {store : List SFile} {f : SFile},
      f ∈ store → (∀ e ∈ entries, e.file ≠ fpath m f.name) →
      f ∈ removalStep gitRmOk m entries store := by
  intro entries
  induction entries with
  | nil =>
    intro store f hf _
    exact hf
  | cons e rest ih =>
    intro store f hf h
    rw [removalStep_cons]
    apply ih _ (fun e2 h2 => h e2 (List.mem_cons_of_mem e h2))
    rw [List.mem_filter]
    refine ⟨hf, ?_⟩
    simp only [bne_iff_ne, ne_eq, decide_eq_true_eq]
    exact fun hc => h e (List.mem_cons_self e rest) hc.symm

end Lemmas

section Claims

/-- C1, counterexample: at the scripts script unit, a persisted script
body of a line feed terminated line and a fetched canonical script body
of the same line without the line feed differ byte-for-byte, yet the
save loop emits no change entry of any kind and leaves the stored bytes
untouched, because the unit's change predicate is a context diff over
splitlines rather than byte equality. -/
theorem C1_counterexample :
    (("a\n") ≠ ("a"))
    ∧ scriptsSave [{ id := 7, name := ("s7"), dataCanon := ("D"), script := ("a") }]
        [{ name := ("7.data"), content := ("D") },
          { name := ("7.script"), content := ("a\n") }]
      = ([], [],
        [{ name := ("7.data"), content := ("D") },
          { name := ("7.script"), content := ("a\n") }]) := by
  decide

/-- C1, amended: for the byte-compared file-units (the categories file,
and likewise the scripts metadata unit), differing canonical content
yields exactly one changed entry and the stored file afterwards holds
the new canonical bytes, while equal content yields no entry and no
rewrite; for the scripts script unit the change predicate is equality of
splitlines line sequences instead of bytes: exactly one changed entry
and a rewrite to the new script bytes when the line sequences differ,
and no entry with the file left as is when they agree, even if the bytes
differ. -/
theorem C1_change_detection :
    (∀ (objs : List FetchedRec) (store : List SFile) (o : FetchedRec) (f : SFile),
      o ∈ objs → (objs.map (fun x => pyStr x.id)).Nodup →
      lookupFile store (pyStr o.id) = some f →
      ((f.content ≠ o.canon →
          ((categoriesSave objs store).1.countP
              (fun e => e.file == fpath ("categories") (pyStr o.id)) = 1)
          ∧ lookupFile (categoriesSave objs store).2.2 (pyStr o.id)
              = some { name := pyStr o.id, content := o.canon })
       ∧ (f.content = o.canon →
          ((categoriesSave objs store).1.countP
              (fun e => e.file == fpath ("categories") (pyStr o.id)) = 0)
          ∧ ((categoriesSave objs store).2.1.countP
              (fun e => e.file == fpath ("categories") (pyStr o.id)) = 0)
          ∧ lookupFile (categoriesSave objs store).2.2 (pyStr o.id) = some f)))
    ∧ (∀ (objs : List ScriptRec) (store : List SFile) (o : ScriptRec) (f : SFile),
      o ∈ objs → (objs.map (fun x => pyStr x.id)).Nodup →
      lookupFile store (pyStr o.id ++ (".script")) = some f →
      ((pySplitlines f.content ≠ pySplitlines o.script →
          ((scriptsSave objs store).1.countP
              (fun e => e.file == fpath ("scripts") (pyStr o.id ++ (".script"))) = 1)
          ∧ lookupFile (scriptsSave objs store).2.2 (pyStr o.id ++ (".script"))
              = some { name := pyStr o.id ++ (".script"), content := o.script })
       ∧ (pySplitlines f.content = pySplitlines o.script →
          ((scriptsSave objs store).1.countP
              (fun e => e.file == fpath ("scripts") (pyStr o.id ++ (".script"))) = 0)
          ∧ ((scriptsSave objs store).2.1.countP
              (fun e => e.file == fpath ("scripts") (pyStr o.id ++ (".script"))) = 0)
          ∧ lookupFile (scriptsSave objs store).2.2 (pyStr o.id ++ (".script"))
              = some f))) := by
  constructor
  · intro objs store o f ho hnd hl
    constructor
    · intro hne
      have h := (categoriesSave_spec objs store o ho hnd).1 f hl hne
      exact ⟨h.1, h.2.2⟩
    · intro heq
      exact (categoriesSave_spec objs store o ho hnd).2.1 f hl heq
  · intro objs store o f ho hnd hl
    constructor
    · intro hne
      have h := (scriptsSave_script_spec objs store o f ho hnd hl).1 hne
      exact ⟨h.1, h.2.2⟩
    · intro heq
      exact (scriptsSave_script_spec objs store o f ho hnd hl).2 heq

/-- C1, witness: the amended theorem applied to one concrete changed
categories object and one concrete unchanged script unit. -/
theorem C1_change_detection_witness :
    (((categoriesSave [{ id := 7, name := ("n7"), canon := ("NEW") }]
        [{ name := ("7"), content := ("OLD") }]).1.countP
          (fun e => e.file == fpath ("categories") (pyStr 7)) = 1)
      ∧ lookupFile (categoriesSave [{ id := 7, name := ("n7"), canon := ("NEW") }]
          [{ name := ("7"), content := ("OLD") }]).2.2 (pyStr 7)
        = some { name := pyStr 7, content := ("NEW") })
    ∧ (((scriptsSave [{ id := 7, name := ("s7"), dataCanon := ("D"), script := ("a") }]
        [{ name := ("7.data"), content := ("D") },
          { name := ("7.script"), content := ("a\n") }]).1.countP
          (fun e => e.file == fpath ("scripts") (pyStr 7 ++ (".script"))) = 0)
      ∧ ((scriptsSave [{ id := 7, name := ("s7"), dataCanon := ("D"), script := ("a") }]
          [{ name := ("7.data"), content := ("D") },
            { name := ("7.script"), content := ("a\n") }]).2.1.countP
          (fun e => e.file == fpath ("scripts") (pyStr 7 ++ (".script"))) = 0)
      ∧ lookupFile (scriptsSave [{ id := 7, name := ("s7"), dataCanon := ("D"), script := ("a") }]
          [{ name := ("7.data"), content := ("D") },
            { name := ("7.script"), content := ("a\n") }]).2.2 (pyStr 7 ++ (".script"))
        = some { name := ("7.script"), content := ("a\n") }) :=
  ⟨(C1_change_detection.1 [{ id := 7, name := ("n7"), canon := ("NEW") }]
      [{ name := ("7"), content := ("OLD") }]
      { id := 7, name := ("n7"), canon := ("NEW") }
      { name := ("7"), content := ("OLD") }
      (by decide) (by decide) (by decide)).1 (by decide),
    (C1_change_detection.2 [{ id := 7, name := ("s7"), dataCanon := ("D"), script := ("a") }]
      [{ name := ("7.data"), content := ("D") },
        { name := ("7.script"), content := ("a\n") }]
      { id := 7, name := ("s7"), dataCanon := ("D"), script := ("a") }
      { name := ("7.script"), content := ("a\n") }
      (by decide) (by decide) (by decide)).2 (by decide)⟩

/-- C2: an identity whose file sits in the listing but which no fetched
object bears appears exactly once in the remove list of a successful
categories run, and after the removal pass of main, through git rm or
the unlink fallback, no file of that name remains in the store. -/
theorem C2_removed (loadName : String → Except PyErr String)
    (objs : List FetchedRec) (store : List SFile) (i : Nat) (f : SFile)
    (gitRmOk : String → Bool) (log : ModuleLog) (st : List SFile)
    (hnd : (store.map (fun g => g.name)).Nodup)
    (hf : f ∈ store) (hname : f.name = pyStr i)
    (habs : ∀ o ∈ objs, o.id ≠ i)
    (hrun : categoriesRun loadName objs store = Except.ok (log, st)) :
    log.remove.countP (fun e => e.file == fpath ("categories") (pyStr i)) = 1
    ∧ lookupFile (removalStep gitRmOk ("categories") log.remove st) (pyStr i)
        = none := by
  have hdec := categoriesRun_ok hrun
  have hsc := hdec.1
  have hdg : startsWithDigit f.name = true := by
    rw [hname]
    exact startsWithDigit_pyStr i
  have hfm : noFetchedMatch (objs.map (fun o => o.id)) (pyStem f.name)
      = Except.ok true := by
    rw [hname, pyStem_pyStr]
    apply noFetchedMatch_true
    intro hc
    rcases List.mem_map.mp hc with ⟨o, ho, hoi⟩
    exact habs o ho hoi
  have hcount := removeScan_count_one hsc hnd f hf hdg hfm
  rw [hname] at hcount
  refine ⟨hcount, ?_⟩
  have hpos : 0 < log.remove.countP
      (fun e => e.file == fpath ("categories") (pyStr i)) := by
    rw [hcount]
    exact Nat.one_pos
  rcases List.countP_pos_iff.mp hpos with ⟨e, he, hpe⟩
  apply removalStep_absent
  exact ⟨e, he, by simpa using hpe⟩

/-- C2, witness: one unfetched identity in a one-file store. -/
theorem C2_removed_witness :
    (((⟨[], [], [⟨("G"), ("3"), ("categories/3")⟩]⟩ : ModuleLog).remove.countP
          (fun e => e.file == fpath ("categories") (pyStr 3)) = 1)
      ∧ lookupFile (removalStep (fun _ => true) ("categories")
          (⟨[], [], [⟨("G"), ("3"), ("categories/3")⟩]⟩ : ModuleLog).remove
          [⟨("3"), ("G")⟩]) (pyStr 3) = none) :=
  C2_removed (fun c => Except.ok c) [] [⟨("3"), ("G")⟩] 3
    ⟨("3"), ("G")⟩ (fun _ => true)
    ⟨[], [], [⟨("G"), ("3"), ("categories/3")⟩]⟩
    [⟨("3"), ("G")⟩]
    (by decide) (by decide) (by decide) (by decide) rfl

/-- C3: running a module body a second time over the store left by a
successful first run and the removal pass, with the same fetched data,
emits no change entries of any kind and leaves every file untouched, for
the categories engine and for the two-unit scripts engine. -/
theorem C3_idempotent :
    (∀ (loadName loadName2 : String → Except PyErr String)
        (objs : List FetchedRec) (store : List SFile) (log1 : ModuleLog)
        (st1 : List SFile) (gitRmOk : String → Bool),
      (objs.map (fun o => pyStr o.id)).Nodup →
      categoriesRun loadName objs store = Except.ok (log1, st1) →
      categoriesRun loadName2 objs
          (removalStep gitRmOk ("categories") log1.remove st1)
        = Except.ok (⟨[], [], []⟩,
            removalStep gitRmOk ("categories") log1.remove st1))
    ∧ (∀ (loadName loadName2 : String → Except PyErr String)
        (objs : List ScriptRec) (store : List SFile) (log1 : ModuleLog)
        (st1 : List SFile) (gitRmOk : String → Bool),
      (objs.map (fun o => pyStr o.id)).Nodup →
      scriptsRun loadName objs store = Except.ok (log1, st1) →
      scriptsRun loadName2 objs
          (removalStep gitRmOk ("scripts") log1.remove st1)
        = Except.ok (⟨[], [], []⟩,
            removalStep gitRmOk ("scripts") log1.remove st1)) := by
  constructor
  · intro loadName loadName2 objs store log1 st1 gitRmOk hnd hrun
    have hdec := categoriesRun_ok hrun
    have hsc := hdec.1
    have hst : st1 = (categoriesSave objs store).2.2 := hdec.2.2.2
    have hsync : ∀ o ∈ objs, ∃ f,
        lookupFile (removalStep gitRmOk ("categories") log1.remove st1)
          (pyStr o.id) = some f ∧ f.content = o.canon := by
      intro o ho
      rcases categoriesSave_post objs store o ho hnd with ⟨f, hf, hc⟩
      have hkeep : ∀ e ∈ log1.remove, e.file ≠ fpath ("categories") (pyStr o.id) := by
        intro e he hc2
        rcases removeScan_entries _ ("categories") _ store log1.remove hsc e he
          with ⟨g, hg, hef, hdg, hfm⟩
        have hgn : g.name = pyStr o.id := fpath_inj (by rw [← hef]; exact hc2)
        rw [hgn, pyStem_pyStr] at hfm
        rw [noFetchedMatch_false (List.mem_map_of_mem (fun o2 => o2.id) ho)] at hfm
        injection hfm with h2
        cases h2
      rw [removalStep_lookup st1 hkeep, hst]
      exact ⟨f, hf, hc⟩
    have hscan2 : ∀ f2 ∈ removalStep gitRmOk ("categories") log1.remove st1,
        startsWithDigit f2.name = true →
        noFetchedMatch (objs.map (fun o => o.id)) (pyStem f2.name)
          = Except.ok false := by
      intro f2 hf2 hdg
      have hmem := removalStep_mem_of hf2
      have hnames := categoriesSave_names objs store f2 (hst ▸ hmem.1)
      rcases hnames with hin | ⟨o, ho, hname⟩
      · rcases List.mem_map.mp hin with ⟨g, hg, hgn⟩
        have hdg2 : startsWithDigit g.name = true := by rw [hgn]; exact hdg
        rcases removeScan_mem_cases hsc g hg hdg2 with hok | ⟨hfm, e, he, hef⟩
        · rw [← hgn]
          exact hok
        · exact absurd (by rw [hgn] at hef; exact hef.symm) (hmem.2 e he)
      · rw [hname, pyStem_pyStr]
        exact noFetchedMatch_false (List.mem_map_of_mem (fun o2 => o2.id) ho)
    have hscan_empty := removeScan_empty (fun f => loadName2 f.content)
      ("categories") (objs.map (fun o => o.id)) _ hscan2
    have hnoop := categoriesSave_noop objs _ hsync
    unfold categoriesRun
    rw [hscan_empty]
    dsimp only
    rw [hnoop]
  · intro loadName loadName2 objs store log1 st1 gitRmOk hnd hrun
    have hdec := scriptsRun_ok hrun
    have hsc := hdec.1
    have hst : st1 = (scriptsSave objs store).2.2 := hdec.2.2.2
    have hkeepgen : ∀ (o : ScriptRec), o ∈ objs → ∀ (suf : String),
        pyStem (pyStr o.id ++ suf) = pyStr o.id →
        ∀ e ∈ log1.remove, e.file ≠ fpath ("scripts") (pyStr o.id ++ suf) := by
      intro o ho suf hstem e he hc2
      rcases removeScan_entries _ ("scripts") _ store log1.remove hsc e he
        with ⟨g, hg, hef, hdg, hfm⟩
      have hgn : g.name = pyStr o.id ++ suf := fpath_inj (by rw [← hef]; exact hc2)
      rw [hgn, hstem] at hfm
      rw [noFetchedMatch_false (List.mem_map_of_mem (fun o2 => o2.id) ho)] at hfm
      injection hfm with h2
      cases h2
    have hsync : ∀ o ∈ objs,
        (∃ f, lookupFile (removalStep gitRmOk ("scripts") log1.remove st1)
            (pyStr o.id ++ (".data")) = some f ∧ f.content = o.dataCanon)
        ∧ (∃ f, lookupFile (removalStep gitRmOk ("scripts") log1.remove st1)
            (pyStr o.id ++ (".script")) = some f
            ∧ pySplitlines f.content = pySplitlines o.script) := by
      intro o ho
      rcases scriptsSave_post objs store o ho hnd with ⟨⟨fD, hfD, hcD⟩, ⟨fS, hfS, hcS⟩⟩
      constructor
      · rw [removalStep_lookup st1 (hkeepgen o ho (".data") (pyStem_dataName o.id)), hst]
        exact ⟨fD, hfD, hcD⟩
      · rw [removalStep_lookup st1 (hkeepgen o ho (".script") (pyStem_scriptName o.id)), hst]
        exact ⟨fS, hfS, hcS⟩
    have hscan2 : ∀ f2 ∈ removalStep gitRmOk ("scripts") log1.remove st1,
        startsWithDigit f2.name = true →
        noFetchedMatch (objs.map (fun o => o.id)) (pyStem f2.name)
          = Except.ok false := by
      intro f2 hf2 hdg
      have hmem := removalStep_mem_of hf2
      have hnames := scriptsSave_names objs store f2 (hst ▸ hmem.1)
      rcases hnames with hin | ⟨o, ho, hor⟩
      · rcases List.mem_map.mp hin with ⟨g, hg, hgn⟩
        have hdg2 : startsWithDigit g.name = true := by rw [hgn]; exact hdg
        rcases removeScan_mem_cases hsc g hg hdg2 with hok | ⟨hfm, e, he, hef⟩
        · rw [← hgn]
          exact hok
        · exact absurd (by rw [hgn] at hef; exact hef.symm) (hmem.2 e he)
      · rcases hor with hname | hname
        · rw [hname, pyStem_dataName]
          exact noFetchedMatch_false (List.mem_map_of_mem (fun o2 => o2.id) ho)
        · rw [hname, pyStem_scriptName]
          exact noFetchedMatch_false (List.mem_map_of_mem (fun o2 => o2.id) ho)
    have hscan_empty := removeScan_empty (scriptsNameOf loadName2)
      ("scripts") (objs.map (fun o => o.id)) _ hscan2
    have hnoop := scriptsSave_noop objs _ hsync
    unfold scriptsRun
    rw [hscan_empty]
    dsimp only
    rw [hnoop]

/-- C3, witness: the categories engine run twice over the spec's worked
scenario, and the scripts engine run twice from an empty store. -/
theorem C3_idempotent_witness :
    (categoriesRun (fun c => Except.ok c) [⟨7, ("n7"), ("NEW")⟩, ⟨9, ("n9"), ("F")⟩]
        (removalStep (fun _ => true) ("categories")
          (⟨[⟨("n7"), ("7"), ("categories/7")⟩], [⟨("n9"), ("9"), ("categories/9")⟩],
            [⟨("G"), ("3"), ("categories/3")⟩]⟩ : ModuleLog).remove
          [⟨("7"), ("NEW")⟩, ⟨("3"), ("G")⟩, ⟨("x"), ("H")⟩, ⟨("9"), ("F")⟩])
      = Except.ok (⟨[], [], []⟩,
          removalStep (fun _ => true) ("categories")
            (⟨[⟨("n7"), ("7"), ("categories/7")⟩], [⟨("n9"), ("9"), ("categories/9")⟩],
              [⟨("G"), ("3"), ("categories/3")⟩]⟩ : ModuleLog).remove
            [⟨("7"), ("NEW")⟩, ⟨("3"), ("G")⟩, ⟨("x"), ("H")⟩, ⟨("9"), ("F")⟩]))
    ∧ (scriptsRun (fun c => Except.ok c) [⟨4, ("s4"), ("D"), ("body")⟩]
        (removalStep (fun _ => true) ("scripts")
          (⟨[], [⟨("s4"), ("4"), ("scripts/4.data")⟩, ⟨("s4"), ("4"), ("scripts/4.script")⟩],
            []⟩ : ModuleLog).remove
          [⟨("4.data"), ("D")⟩, ⟨("4.script"), ("body")⟩])
      = Except.ok (⟨[], [], []⟩,
          removalStep (fun _ => true) ("scripts")
            (⟨[], [⟨("s4"), ("4"), ("scripts/4.data")⟩, ⟨("s4"), ("4"), ("scripts/4.script")⟩],
              []⟩ : ModuleLog).remove
            [⟨("4.data"), ("D")⟩, ⟨("4.script"), ("body")⟩])) :=
  ⟨C3_idempotent.1 (fun c => Except.ok c) (fun c => Except.ok c)
      [⟨7, ("n7"), ("NEW")⟩, ⟨9, ("n9"), ("F")⟩]
      [⟨("7"), ("OLD")⟩, ⟨("3"), ("G")⟩, ⟨("x"), ("H")⟩]
      ⟨[⟨("n7"), ("7"), ("categories/7")⟩], [⟨("n9"), ("9"), ("categories/9")⟩],
        [⟨("G"), ("3"), ("categories/3")⟩]⟩
      [⟨("7"), ("NEW")⟩, ⟨("3"), ("G")⟩, ⟨("x"), ("H")⟩, ⟨("9"), ("F")⟩]
      (fun _ => true) (by decide) rfl,
    C3_idempotent.2 (fun c => Except.ok c) (fun c => Except.ok c)
      [⟨4, ("s4"), ("D"), ("body")⟩] []
      ⟨[], [⟨("s4"), ("4"), ("scripts/4.data")⟩, ⟨("s4"), ("4"), ("scripts/4.script")⟩], []⟩
      [⟨("4.data"), ("D")⟩, ⟨("4.script"), ("body")⟩]
      (fun _ => true) (by decide) rfl⟩

/-- C9: main commits all additions, then all changes, then all removals,
so each module's records reach git in the order add then change then
remove; within added and changed the engine emits entries as a
subsequence of the fetch order with no re-sorting, and within removed as
a subsequence of the directory-listing order. -/
theorem C9_commit_order :
    (∀ (logs : List (String × ModuleLog)) (m : String) (log : ModuleLog),
      (m, log) ∈ logs → (logs.map (fun ml => ml.1)).Nodup →
      (commitSequence logs).filter (fun t => t.1 == m)
        = log.add.map (fun e => (m, CommitKind.created, e))
          ++ log.diff.map (fun e => (m, CommitKind.changed, e))
          ++ log.remove.map (fun e => (m, CommitKind.removed, e)))
    ∧ (∀ (objs : List FetchedRec) (store : List SFile),
      ((categoriesSave objs store).1.Sublist
        (objs.map (fun o => (⟨o.name, pyStr o.id,
          fpath ("categories") (pyStr o.id)⟩ : ChangeEntry))))
      ∧ ((categoriesSave objs store).2.1.Sublist
        (objs.map (fun o => (⟨o.name, pyStr o.id,
          fpath ("categories") (pyStr o.id)⟩ : ChangeEntry)))))
    ∧ (∀ (nameOf : SFile → Except PyErr String) (m : String) (ids : List Nat)
        (store : List SFile) (l : List ChangeEntry),
      removeScan nameOf m ids store = Except.ok l →
      (l.map (fun e => e.file)).Sublist (store.map (fun g => fpath m g.name))) := by
  refine ⟨?_, ?_, ?_⟩
  · intro logs m log hmem hnd
    unfold commitSequence
    rw [List.filter_append, List.filter_append]
    rw [filter_flatMap_module (fun ml => ml.add) CommitKind.created logs m log hmem hnd]
    rw [filter_flatMap_module (fun ml => ml.diff) CommitKind.changed logs m log hmem hnd]
    rw [filter_flatMap_module (fun ml => ml.remove) CommitKind.removed logs m log hmem hnd]
  · intro objs store
    exact categoriesSave_sublists objs store
  · intro nameOf m ids store l h
    exact removeScan_sublist h

/-- C9, witness: a two-module log projected to one module, and the
engine runs of the spec's worked scenario. -/
theorem C9_commit_order_witness :
    ((commitSequence [(("categories"), ⟨[⟨("a"), ("1"), ("categories/1")⟩],
        [⟨("b"), ("2"), ("categories/2")⟩], [⟨("c"), ("3"), ("categories/3")⟩]⟩),
        (("scripts"), ⟨[], [⟨("d"), ("4"), ("scripts/4.data")⟩], []⟩)]).filter
          (fun t => t.1 == ("categories"))
      = ([⟨("b"), ("2"), ("categories/2")⟩].map
          (fun e => (("categories"), CommitKind.created, e)))
        ++ ([⟨("a"), ("1"), ("categories/1")⟩].map
          (fun e => (("categories"), CommitKind.changed, e)))
        ++ ([⟨("c"), ("3"), ("categories/3")⟩].map
          (fun e => (("categories"), CommitKind.removed, e))))
    ∧ (((categoriesSave ([⟨7, ("n7"), ("NEW")⟩, ⟨9, ("n9"), ("F")⟩] : List FetchedRec)
        ([⟨("7"), ("OLD")⟩] : List SFile)).1.Sublist
          (([⟨7, ("n7"), ("NEW")⟩, ⟨9, ("n9"), ("F")⟩] : List FetchedRec).map
            (fun o => (⟨o.name, pyStr o.id,
              fpath ("categories") (pyStr o.id)⟩ : ChangeEntry))))
      ∧ ((categoriesSave ([⟨7, ("n7"), ("NEW")⟩, ⟨9, ("n9"), ("F")⟩] : List FetchedRec)
          ([⟨("7"), ("OLD")⟩] : List SFile)).2.1.Sublist
            (([⟨7, ("n7"), ("NEW")⟩, ⟨9, ("n9"), ("F")⟩] : List FetchedRec).map
              (fun o => (⟨o.name, pyStr o.id,
                fpath ("categories") (pyStr o.id)⟩ : ChangeEntry)))))
    ∧ ((([⟨("G"), ("3"), ("categories/3")⟩] : List ChangeEntry).map (fun e => e.file)).Sublist
        (([⟨("7"), ("NEW")⟩, ⟨("3"), ("G")⟩, ⟨("x"), ("H")⟩] : List SFile).map
          (fun g => fpath ("categories") g.name))) :=
  ⟨C9_commit_order.1 [(("categories"), ⟨[⟨("a"), ("1"), ("categories/1")⟩],
      [⟨("b"), ("2"), ("categories/2")⟩], [⟨("c"), ("3"), ("categories/3")⟩]⟩),
      (("scripts"), ⟨[], [⟨("d"), ("4"), ("scripts/4.data")⟩], []⟩)]
      ("categories")
      ⟨[⟨("a"), ("1"), ("categories/1")⟩], [⟨("b"), ("2"), ("categories/2")⟩],
        [⟨("c"), ("3"), ("categories/3")⟩]⟩
      (by decide) (by decide),
    C9_commit_order.2.1 [⟨7, ("n7"), ("NEW")⟩, ⟨9, ("n9"), ("F")⟩] [⟨("7"), ("OLD")⟩],
    C9_commit_order.2.2 (fun f => Except.ok f.content) ("categories") [7, 9]
      [⟨("7"), ("NEW")⟩, ⟨("3"), ("G")⟩, ⟨("x"), ("H")⟩]
      [⟨("G"), ("3"), ("categories/3")⟩] rfl⟩

/-- C10: a file of the module directory whose name does not begin with a
decimal digit never enters removal detection: no remove entry of a
successful scan references it, and it survives the whole categories run
including main's removal pass, untouched. -/
theorem C10_nondigit_files :
    (∀ (nameOf : SFile → Except PyErr String) (m : String) (ids : List Nat)
        (store : List SFile) (l : List ChangeEntry) (f : SFile),
      removeScan nameOf m ids store = Except.ok l →
      f ∈ store → startsWithDigit f.name = false →
      ∀ e ∈ l, e.file ≠ fpath m f.name)
    ∧ (∀ (loadName : String → Except PyErr String) (objs : List FetchedRec)
        (store : List SFile) (f : SFile) (gitRmOk : String → Bool)
        (log : ModuleLog) (st : List SFile),
      categoriesRun loadName objs store = Except.ok (log, st) →
      f ∈ store → startsWithDigit f.name = false →
      f ∈ removalStep gitRmOk ("categories") log.remove st) := by
  have hpart1 : ∀ (nameOf : SFile → Except PyErr String) (m : String)
      (ids : List Nat) (store : List SFile) (l : List ChangeEntry) (f : SFile),
      removeScan nameOf m ids store = Except.ok l →
      f ∈ store → startsWithDigit f.name = false →
      ∀ e ∈ l, e.file ≠ fpath m f.name := by
    intro nameOf m ids store l f h _ hdg e he hc
    rcases removeScan_entries nameOf m ids store l h e he with ⟨g, _, hef, hdgg, _⟩
    have hgn : g.name = f.name := fpath_inj (by rw [← hef]; exact hc)
    rw [hgn, hdg] at hdgg
    cases hdgg
  refine ⟨hpart1, ?_⟩
  intro loadName objs store f gitRmOk log st hrun hf hdg
  have hdec := categoriesRun_ok hrun
  have hids : ∀ o ∈ objs, pyStr o.id ≠ f.name := by
    intro o _ hc
    rw [← hc, startsWithDigit_pyStr] at hdg
    cases hdg
  have hst : f ∈ st := by
    rw [hdec.2.2.2]
    exact categoriesSave_mem_preserved objs store f hids hf
  apply removalStep_mem_keep hst
  intro e he
  exact hpart1 _ ("categories") _ store log.remove f hdec.1 hf hdg e he

/-- C10, witness: a dot-file style name in a store beside a removable
digit-named file. -/
theorem C10_nondigit_files_witness :
    ((∀ e ∈ [(⟨("G"), ("3"), ("categories/3")⟩ : ChangeEntry)],
        e.file ≠ fpath ("categories") ("notes.txt"))
    ∧ ((⟨("notes.txt"), ("hello")⟩ : SFile) ∈ removalStep (fun _ => true)
        ("categories")
        (⟨[], [], []⟩ : ModuleLog).remove
        [⟨("notes.txt"), ("hello")⟩])) :=
  ⟨C10_nondigit_files.1 (fun f => Except.ok f.content) ("categories") []
      [⟨("notes.txt"), ("hello")⟩, ⟨("3"), ("G")⟩]
      [⟨("G"), ("3"), ("categories/3")⟩] ⟨("notes.txt"), ("hello")⟩
      rfl (by decide) (by decide),
    C10_nondigit_files.2 (fun c => Except.ok c) [] [⟨("notes.txt"), ("hello")⟩]
      ⟨("notes.txt"), ("hello")⟩ (fun _ => true)
      ⟨[], [], []⟩ [⟨("notes.txt"), ("hello")⟩]
      rfl (by decide) (by decide)⟩

/-- C4, counterexample: against the response sequence whose totalCount
grows by one page size every page, the pagination loop of the modules
runs forever; in particular no bounded number of pages is ever treated
as a fatal fetch error, there being no such cutoff in the loop. -/
theorem C4_counterexample : fetchLoopDiverges growApi := by
  intro fuel
  induction fuel with
  | zero =>
    intro page acc
    rfl
  | succ fuel ih =>
    intro page acc
    show fetchLoop growApi (fuel + 1) page acc = FetchOutcome.looping
    unfold fetchLoop growApi
    dsimp only
    rw [if_pos (by omega)]
    exact ih (page + 1) (acc ++ [])

/-- C4, amended: the loop recomputes the remainder on each iteration
from the just-received totalCount, so it tolerates the total changing
between pages, and it terminates whenever the reported totals stay
bounded; but it has no bounded-page cutoff and no fetch-error path, and
a sequence of responses whose totals keep up with the page counter keeps
it looping forever. -/
theorem C4_pagination :
    (∀ {α : Type} (api : Nat → ApiResponse α) (fuel page : Nat) (acc : List α)
        (total : Nat) (results : List α),
      (api page).data = ApiData.json total results →
      fetchLoop api (fuel + 1) page acc
        = if (page + 1) * 100 < total then fetchLoop api fuel (page + 1) (acc ++ results)
          else FetchOutcome.done (acc ++ results) (api page))
    ∧ (∀ {α : Type} (api : Nat → ApiResponse α) (T : Nat),
      (∀ (p total : Nat) (results : List α),
        (api p).data = ApiData.json total results → total ≤ T) →
      ∀ (fuel page : Nat) (acc : List α), T ≤ 100 * (fuel + page) →
      fetchLoop api (fuel + 1) page acc ≠ FetchOutcome.looping) := by
  constructor
  · intro α api fuel page acc total results hdata
    conv_lhs => unfold fetchLoop
    rw [hdata]
  · intro α api T hbound fuel
    induction fuel with
    | zero =>
      intro page acc hT
      unfold fetchLoop
      cases hdata : (api page).data with
      | json total results =>
        dsimp only
        have htot := hbound page total results hdata
        rw [if_neg (by omega)]
        simp
      | text body => simp
      | nothing => simp
    | succ fuel ih =>
      intro page acc hT
      show fetchLoop api (fuel + 1 + 1) page acc ≠ FetchOutcome.looping
      unfold fetchLoop
      cases hdata : (api page).data with
      | json total results =>
        dsimp only
        by_cases hc : (page + 1) * 100 < total
        · rw [if_pos hc]
          exact ih (page + 1) (acc ++ results) (by omega)
        · rw [if_neg hc]
          simp
      | text body => simp
      | nothing => simp

/-- C4, witness: the step equation at a concrete changing-total response,
and termination within the bound for a constant total of 250. -/
theorem C4_pagination_witness :
    (fetchLoop growApi 1 0 ([] : List FetchedRec)
      = (if (0 + 1) * 100 < (0 + 2) * 100
          then fetchLoop growApi 0 (0 + 1) ([] ++ [])
          else FetchOutcome.done ([] ++ []) (growApi 0)))
    ∧ (fetchLoop (fun _ => (⟨true, ApiData.json 250 []⟩ : ApiResponse FetchedRec)) 4 0 []
      ≠ FetchOutcome.looping) :=
  ⟨C4_pagination.1 growApi 0 0 [] ((0 + 2) * 100) [] rfl,
    C4_pagination.2 (fun _ => (⟨true, ApiData.json 250 []⟩ : ApiResponse FetchedRec)) 250
      (fun p total results h => by injection h with h1 _; omega)
      3 0 [] (by omega)⟩

/-- C5: the failure path of a paginated module is not confined.  On a
non-success collection response the body of categories.get subscripts
totalCount on the response text and raises TypeError before ever reaching
its success check (its error-logging else branch is unreachable), the
thread dies with no report, and main then crashes with TypeError in
logs.update(None), aborting the whole run instead of continuing with the
other modules. -/
theorem C5_fetch_failure_crashes :
    categoriesGet failApi (fun c => Except.ok c) [] 5
      = RunOutcome.raised PyErr.typeError
    ∧ mainCollect [threadValue ("categories")
        (categoriesGet failApi (fun c => Except.ok c) [] 5)]
      = Except.error PyErr.typeError
    ∧ computergroupsGet false [] (fun c => Except.ok c) (fun _ => none) []
      = RunOutcome.finished ⟨[], [], []⟩ []
          [("Starting computergroups"), ("Failed to retrieve: computergroups")] :=
  ⟨rfl, rfl, rfl⟩

/-- C6, counterexample: with the detail fetch failing for the first of
two collection objects, the computergroups body skips it and processes
the second, but nothing whatsoever is logged about the failure: the
report holds no entry for the failed identity and the emitted log
records are exactly the start and completion lines. -/
theorem C6_counterexample :
    computergroupsGet true [1, 2] (fun c => Except.ok c)
      (fun i => if i == 2 then some ⟨("g2"), ("C2")⟩ else none) []
      = RunOutcome.finished ⟨[], [⟨("g2"), ("2"), ("computergroups/2")⟩], []⟩
          [⟨("2"), ("C2")⟩]
          [("Starting computergroups"), ("Completed computergroups")] := by
  decide

/-- C6, amended: a detail-fetch failure for one object does not abort
the module: the save loop behaves exactly as if the failed identities
were absent from the collection, every other object still being diffed
and persisted; the skip is silent, the module's log records being the
fixed start and completion lines with no mention of the failure. -/
theorem C6_detail_failure_skipped :
    (∀ (detail : Nat → Option CGDetail) (ids : List Nat) (store : List SFile),
      computergroupsSave detail ids store
        = computergroupsSave detail (ids.filter (fun i => (detail i).isSome)) store)
    ∧ (∀ (ids : List Nat) (loadName : String → Except PyErr String)
        (detail : Nat → Option CGDetail) (store : List SFile)
        (log : ModuleLog) (st : List SFile) (msgs : List String),
      computergroupsGet true ids loadName detail store
        = RunOutcome.finished log st msgs →
      msgs = [("Starting computergroups"), ("Completed computergroups")]) := by
  constructor
  · intro detail ids
    induction ids with
    | nil => intro store; rfl
    | cons i rest ih =>
      intro store
      cases hd : detail i with
      | none =>
        rw [List.filter_cons_of_neg (by simp [hd])]
        have hstep : computergroupsSave detail (i :: rest) store
            = computergroupsSave detail rest store := by
          conv_lhs => unfold computergroupsSave
          rw [hd]
        rw [hstep]
        exact ih store
      | some d =>
        rw [List.filter_cons_of_pos (by simp [hd])]
        unfold computergroupsSave
        simp only [hd]
        cases hl : lookupFile store (pyStr i) with
        | some f =>
          dsimp only
          by_cases hc : f.content = d.canon
          · rw [if_neg (by simp [hc]), if_neg (by simp [hc])]
            exact ih store
          · rw [if_pos hc, if_pos hc]
            rw [ih (updateFile store (pyStr i) d.canon)]
        | none =>
          dsimp only
          rw [ih (createFile store (pyStr i) d.canon)]
  · intro ids loadName detail store log st msgs h
    unfold computergroupsGet at h
    rw [if_pos rfl] at h
    cases hsc : removeScan (fun f => loadName f.content) ("computergroups") ids store with
    | error e =>
      rw [hsc] at h
      cases h
    | ok removes =>
      rw [hsc] at h
      dsimp only at h
      injection h with h1 h2 h3
      exact h3.symm

/-- C6, witness: the save equation at the counterexample detail
function, and the message equation at the counterexample run. -/
theorem C6_detail_failure_skipped_witness :
    (computergroupsSave (fun i => if i == 2 then some ⟨("g2"), ("C2")⟩ else none) [1, 2] []
      = computergroupsSave (fun i => if i == 2 then some ⟨("g2"), ("C2")⟩ else none)
          ([1, 2].filter (fun i =>
            ((fun i => if i == 2 then some (⟨("g2"), ("C2")⟩ : CGDetail) else none) i).isSome)) [])
    ∧ ([("Starting computergroups"), ("Completed computergroups")]
        = [("Starting computergroups"), ("Completed computergroups")]) :=
  ⟨C6_detail_failure_skipped.1 (fun i => if i == 2 then some ⟨("g2"), ("C2")⟩ else none) [1, 2] [],
    C6_detail_failure_skipped.2 [1, 2] (fun c => Except.ok c)
      (fun i => if i == 2 then some ⟨("g2"), ("C2")⟩ else none) []
      ⟨[], [⟨("g2"), ("2"), ("computergroups/2")⟩], []⟩ [⟨("2"), ("C2")⟩]
      [("Starting computergroups"), ("Completed computergroups")] (by decide)⟩

/-- Replacing one element changes a count by swapping that element's
contribution. -/
theorem countP_set_swap {α : Type} (p : α → Bool) :
    ∀ (l : List α) (i : Nat) (u v : α), l[i]? = some u →
      (l.set i v).countP p + (if p u then 1 else 0)
        = l.countP p + (if p v then 1 else 0) := by
  intro l
  induction l with
  | nil =>
    intro i u v hu
    cases hu
  | cons a t ih =>
    intro i u v hu
    cases i with
    | zero =>
      have hau : a = u := by simpa using hu
      subst hau
      simp only [List.set_cons_zero, List.countP_cons]
      omega
    | succ i =>
      have hu2 : t[i]? = some u := by simpa using hu
      rw [List.set_cons_succ]
      simp only [List.countP_cons]
      have := ih i u v hu2
      omega

/-- The scheduler invariant holds initially. -/
theorem schedInv_init (n : Nat) : SchedInv (initSched n) := by
  constructor
  · have h0 : (List.replicate n (⟨UnitPhase.pending, 0⟩ : SchedUnit)).countP
        holdsSlot = 0 :=
      List.countP_eq_zero.mpr
        (fun u hu => by rw [List.eq_of_mem_replicate hu]; decide)
    unfold heldCount initSched
    dsimp only
    rw [h0]
    omega
  · intro u hu
    rw [List.eq_of_mem_replicate hu]
    exact ⟨(fun h => by cases h), (fun _ => rfl)⟩

/-- The scheduler invariant is preserved by every transition. -/
theorem schedInv_step {s t : SchedState} (hinv : SchedInv s)
    (hstep : SchedStep s t) : SchedInv t := by
  cases hstep with
  | acquire i u hu hp hs =>
    have hswap := countP_set_swap holdsSlot s.units i u ({ u with phase := UnitPhase.running }) hu
    have hu0 : holdsSlot u = false := by
      unfold holdsSlot
      rw [hp]
      rfl
    have hv : holdsSlot { u with phase := UnitPhase.running } = true := rfl
    constructor
    · have h1 := hinv.1
      unfold heldCount at *
      rw [hu0, hv] at hswap
      norm_num at hswap
      dsimp only
      omega
    · intro u2 hu2
      rcases List.mem_or_eq_of_mem_set hu2 with hin | rfl
      · exact hinv.2 u2 hin
      · have hrel := hinv.2 u (List.getElem?_mem hu)
        refine ⟨(fun h => by cases h), (fun _ => ?_)⟩
        exact (hrel.2 (by rw [hp]; exact fun h => by cases h))
  | finish i u hu hp =>
    have hswap := countP_set_swap holdsSlot s.units i u ({ u with phase := UnitPhase.finished }) hu
    have hu0 : holdsSlot u = true := by
      unfold holdsSlot
      rw [hp]
      rfl
    have hv : holdsSlot { u with phase := UnitPhase.finished } = true := rfl
    constructor
    · have h1 := hinv.1
      unfold heldCount at *
      rw [hu0, hv] at hswap
      norm_num at hswap
      dsimp only
      omega
    · intro u2 hu2
      rcases List.mem_or_eq_of_mem_set hu2 with hin | rfl
      · exact hinv.2 u2 hin
      · have hrel := hinv.2 u (List.getElem?_mem hu)
        refine ⟨(fun h => by cases h), (fun _ => ?_)⟩
        exact (hrel.2 (by rw [hp]; exact fun h => by cases h))
  | collect i u hu hp =>
    have hswap := countP_set_swap holdsSlot s.units i u (⟨UnitPhase.collected, u.releases + 1⟩) hu
    have hu0 : holdsSlot u = true := by
      unfold holdsSlot
      rw [hp]
      rfl
    have hv : holdsSlot (⟨UnitPhase.collected, u.releases + 1⟩ : SchedUnit) = false := rfl
    constructor
    · have h1 := hinv.1
      unfold heldCount at *
      rw [hu0, hv] at hswap
      norm_num at hswap
      dsimp only
      omega
    · intro u2 hu2
      rcases List.mem_or_eq_of_mem_set hu2 with hin | rfl
      · exact hinv.2 u2 hin
      · have hrel := hinv.2 u (List.getElem?_mem hu)
        have hr0 : u.releases = 0 :=
          hrel.2 (by rw [hp]; exact fun h => by cases h)
        exact ⟨(fun _ => by rw [hr0]), (fun h => absurd rfl h)⟩

/-- The scheduler invariant holds in every reachable state. -/
theorem schedInv_reachable {n : Nat} {s : SchedState}
    (h : SchedReachable n s) : SchedInv s := by
  induction h with
  | init => exact schedInv_init n
  | step _ hstep ih => exact schedInv_step ih hstep

/-- C8: in every state the scheduler can reach, at most 25 units (the
semaphore's capacity) hold an active slot simultaneously, each unit
acquiring a token before running and releasing it exactly once, when its
value is collected: a collected unit's token has been released exactly
once and an uncollected unit's never. -/
theorem C8_concurrency_ceiling (n : Nat) (s : SchedState)
    (h : SchedReachable n s) :
    heldCount s ≤ semCapacity
    ∧ (∀ u ∈ s.units, u.releases ≤ 1)
    ∧ (∀ u ∈ s.units, u.phase = UnitPhase.collected → u.releases = 1)
    ∧ (∀ u ∈ s.units, u.phase ≠ UnitPhase.collected → u.releases = 0) := by
  have hinv := schedInv_reachable h
  have h1 := hinv.1
  refine ⟨by omega, ?_, fun u hu => (hinv.2 u hu).1, fun u hu => (hinv.2 u hu).2⟩
  intro u hu
  by_cases hc : u.phase = UnitPhase.collected
  · rw [(hinv.2 u hu).1 hc]
  · rw [(hinv.2 u hu).2 hc]
    omega

/-- C8, witness: the state after one unit of ten acquires the first
token. -/
theorem C8_concurrency_ceiling_witness :
    heldCount ⟨semCapacity - 1,
        (List.replicate 10 (⟨UnitPhase.pending, 0⟩ : SchedUnit)).set 0
          ⟨UnitPhase.running, 0⟩⟩ ≤ semCapacity
    ∧ (∀ u ∈ (SchedState.mk (semCapacity - 1)
        ((List.replicate 10 (⟨UnitPhase.pending, 0⟩ : SchedUnit)).set 0
          ⟨UnitPhase.running, 0⟩)).units, u.releases ≤ 1)
    ∧ (∀ u ∈ (SchedState.mk (semCapacity - 1)
        ((List.replicate 10 (⟨UnitPhase.pending, 0⟩ : SchedUnit)).set 0
          ⟨UnitPhase.running, 0⟩)).units, u.phase = UnitPhase.collected →
            u.releases = 1)
    ∧ (∀ u ∈ (SchedState.mk (semCapacity - 1)
        ((List.replicate 10 (⟨UnitPhase.pending, 0⟩ : SchedUnit)).set 0
          ⟨UnitPhase.running, 0⟩)).units, u.phase ≠ UnitPhase.collected →
            u.releases = 0) :=
  C8_concurrency_ceiling 10 _
    (SchedReachable.step SchedReachable.init
      (SchedStep.acquire (initSched 10) 0 ⟨UnitPhase.pending, 0⟩
        (by decide) rfl (by decide)))

end Claims

section JsonLemmas

/-- Every pair produced by the member simplification is the single-key
id dict of its own sort key. -/
theorem cgSimplify_pairs :
    ∀ (items : List PyJson) (pairs : List (Int × PyJson)),
      cgSimplify items = Except.ok pairs →
      ∀ p ∈ pairs, p.2 = PyJson.obj [(("id"), PyJson.num p.1)] := by
  intro items
  induction items with
  | nil =>
    intro pairs h p hp
    unfold cgSimplify at h
    cases h
    cases hp
  | cons c rest ih =>
    intro pairs h p hp
    unfold cgSimplify at h
    rw [List.mapM_cons] at h
    simp only [bind, Except.bind, pure, Except.pure] at h
    split at h
    · cases h
    · next b heq =>
      split at h
      · cases h
      · next tail htail =>
        cases h
        rcases List.mem_cons.mp hp with rfl | hmem
        · split at heq
          · cases heq
          · cases heq
            rfl
        · exact ih tail (by unfold cgSimplify; exact htail) p hmem

/-- Two sorted lists of key-determined pairs with the same multiset of
elements coincide. -/
theorem sorted_perm_keyed :
    ∀ (l1 l2 : List (Int × PyJson)), l1.Perm l2 →
      l1.Pairwise (fun a b => a.1 ≤ b.1) →
      l2.Pairwise (fun a b => a.1 ≤ b.1) →
      (∀ p ∈ l1, p.2 = PyJson.obj [(("id"), PyJson.num p.1)]) →
      l1 = l2 := by
  intro l1
  induction l1 with
  | nil =>
    intro l2 hp _ _ _
    exact hp.nil_eq
  | cons a t1 ih =>
    intro l2 hp hs1 hs2 hdet
    cases l2 with
    | nil =>
      have := hp.length_eq
      simp at this
    | cons b t2 =>
      have hab : a = b := by
        have ha2 : a ∈ b :: t2 := hp.mem_iff.mp (List.mem_cons_self a t1)
        have hb1 : b ∈ a :: t1 := hp.mem_iff.mpr (List.mem_cons_self b t2)
        rcases List.mem_cons.mp ha2 with h1 | h1
        · exact h1
        rcases List.mem_cons.mp hb1 with h2 | h2
        · exact h2.symm
        have hab1 : a.1 ≤ b.1 := (List.pairwise_cons.mp hs1).1 b h2
        have hba1 : b.1 ≤ a.1 := (List.pairwise_cons.mp hs2).1 a h1
        have hk : a.1 = b.1 := le_antisymm hab1 hba1
        have hda := hdet a (List.mem_cons_self a t1)
        have hdb := hdet b (List.mem_cons_of_mem a h2)
        cases a with
        | mk a1 a2 =>
          cases b with
          | mk b1 b2 =>
            dsimp only at hk hda hdb
            subst hk
            rw [hda, hdb]
      subst hab
      rw [ih t2 hp.cons_inv (List.pairwise_cons.mp hs1).2
        (List.pairwise_cons.mp hs2).2
        (fun p hp2 => hdet p (List.mem_cons_of_mem a hp2))]

/-- Sorting permuted key-determined pair lists gives identical lists. -/
theorem mergeSort_keyed_perm (pairs1 pairs2 : List (Int × PyJson))
    (hperm : pairs1.Perm pairs2)
    (hdet : ∀ p ∈ pairs1, p.2 = PyJson.obj [(("id"), PyJson.num p.1)]) :
    pairs1.mergeSort (fun a b => decide (a.1 ≤ b.1))
      = pairs2.mergeSort (fun a b => decide (a.1 ≤ b.1)) := by
  have hs1 : List.Pairwise (fun a b : Int × PyJson => (decide (a.1 ≤ b.1)) = true)
      (pairs1.mergeSort (fun a b => decide (a.1 ≤ b.1))) :=
    List.sorted_mergeSort
      (by intro a b c hab hbc; simp only [decide_eq_true_eq] at *; omega)
      (by intro a b; simp only [Bool.or_eq_true, decide_eq_true_eq]; omega) pairs1
  have hs2 : List.Pairwise (fun a b : Int × PyJson => (decide (a.1 ≤ b.1)) = true)
      (pairs2.mergeSort (fun a b => decide (a.1 ≤ b.1))) :=
    List.sorted_mergeSort
      (by intro a b c hab hbc; simp only [decide_eq_true_eq] at *; omega)
      (by intro a b; simp only [Bool.or_eq_true, decide_eq_true_eq]; omega) pairs2
  apply sorted_perm_keyed
  · exact (List.mergeSort_perm pairs1 _).trans
      (hperm.trans (List.mergeSort_perm pairs2 _).symm)
  · exact hs1.imp (fun h => by simpa using h)
  · exact hs2.imp (fun h => by simpa using h)
  · intro p hp2
    exact hdet p ((List.mergeSort_perm pairs1 _).mem_iff.mp hp2)

/-- Setting a present key rewrites it in place, at the find? level. -/
theorem find?_set_self :
    ∀ (fields : List (String × PyJson)) (k : String) (v : PyJson),
      fields.any (fun p => p.1 == k) = true →
      (fields.map (fun p => if p.1 == k then (k, v) else p)).find?
        (fun q => q.1 == k) = some (k, v) := by
  intro fields
  induction fields with
  | nil =>
    intro k v h
    cases h
  | cons p rest ih =>
    intro k v h
    rw [List.map_cons]
    by_cases hp : p.1 = k
    · rw [if_pos (show (p.1 == k) = true by simp [hp])]
      exact List.find?_cons_of_pos _ (by simp)
    · rw [if_neg (show ¬(p.1 == k) = true by simp [hp])]
      rw [List.find?_cons_of_neg _ (by simp [hp])]
      apply ih
      rcases List.any_eq_true.mp h with ⟨q, hq, hqk⟩
      rcases List.mem_cons.mp hq with rfl | hqr
      · exact absurd (by simpa using hqk) hp
      · exact List.any_eq_true.mpr ⟨q, hqr, hqk⟩

/-- Setting a present key rewrites it in place, and looking it up then
finds the new value. -/
theorem jGet_jSetKey_self (fields : List (String × PyJson)) (k : String)
    (v : PyJson) (h : fields.any (fun p => p.1 == k) = true) :
    jGet (PyJson.obj (fields.map (fun p => if p.1 == k then (k, v) else p))) k
      = Except.ok v := by
  unfold jGet
  dsimp only
  rw [find?_set_self fields k v h]

/-- Deleting a present key filters the field list. -/
theorem jDelKey_ok {l : List (String × PyJson)} {k : String} {y : PyJson}
    (h : jDelKey (PyJson.obj l) k = Except.ok y) :
    y = PyJson.obj (l.filter (fun p => p.1 != k)) := by
  unfold jDelKey at h
  dsimp only at h
  by_cases ha : l.any (fun p => p.1 == k) = true
  · rw [if_pos ha] at h
    injection h with h1
    exact h1.symm
  · rw [if_neg ha] at h
    cases h

/-- The deleted key is never found again. -/
theorem jGet_filter_ne (l : List (String × PyJson)) (k : String) :
    jGet (PyJson.obj (l.filter (fun p => p.1 != k))) k
      = Except.error PyErr.keyError := by
  unfold jGet
  dsimp only
  rw [List.find?_eq_none.mpr]
  intro p hp
  have := (List.mem_filter.mp hp).2
  simpa using this

/-- Evaluation of clean\_data on a smart group: the computers key is
deleted whatever the member list held. -/
theorem cgCleanData_smart (nm : String) (items : List PyJson) :
    cgCleanData (mkSmartGroup nm items) = Except.ok (mkSmartGroupCleaned nm) := rfl

/-- Evaluation of clean\_data on a static group: the member list is
simplified and sorted, everything else kept in place. -/
theorem cgCleanData_static (nm : String) (items : List PyJson) :
    cgCleanData (mkStaticGroup nm items)
      = (cgSimplify items).map (mkStaticGroupCleaned nm) := by
  have h1 : jGet (mkStaticGroup nm items) ("computer_group")
      = Except.ok (PyJson.obj [(("name"), PyJson.str nm),
          (("is_smart"), PyJson.bool false),
          (("computers"), PyJson.arr items)]) := rfl
  have h2 : jGet (PyJson.obj [(("name"), PyJson.str nm),
          (("is_smart"), PyJson.bool false),
          (("computers"), PyJson.arr items)]) ("is_smart")
      = Except.ok (PyJson.bool false) := rfl
  have h3 : jGet (PyJson.obj [(("name"), PyJson.str nm),
          (("is_smart"), PyJson.bool false),
          (("computers"), PyJson.arr items)]) ("computers")
      = Except.ok (PyJson.arr items) := rfl
  have h4 : ∀ x : PyJson, jSetKey (PyJson.obj [(("name"), PyJson.str nm),
          (("is_smart"), PyJson.bool false),
          (("computers"), PyJson.arr items)]) ("computers") x
      = Except.ok (PyJson.obj [(("name"), PyJson.str nm),
          (("is_smart"), PyJson.bool false), (("computers"), x)]) :=
    fun x => rfl
  have h5 : ∀ c : PyJson,
      jSetKey (mkStaticGroup nm items) ("computer_group") c
        = Except.ok (PyJson.obj [(("computer_group"), c)]) :=
    fun c => rfl
  unfold cgCleanData
  rw [h1]
  simp only [bind, Except.bind]
  rw [h2]
  dsimp only
  rw [if_neg (show ¬ pyTruthy (PyJson.bool false) = true by decide)]
  rw [h3]
  dsimp only
  cases hp : cgSimplify items with
  | error e =>
    rfl
  | ok pairs =>
    rfl

end JsonLemmas

section ClaimsJson

/-- C7: canonical content is json.dumps of clean\_data.  What holds in
the code: the serialization is a deterministic function of the parsed
response value, categories.clean\_data redacts nothing (it is the
identity, so canonical content is the dump of the raw object in response
key order, sort\_keys being False), and computergroups.clean\_data does
redact its volatile field: a smart group's computed member list is
deleted, and a static group's member list is reduced to id dicts and
sorted by id, so permuted member lists of otherwise identical static
groups canonicalize to byte-identical content. -/
theorem C7_canonical_content :
    (∀ j : PyJson, categoriesCanon j = pyDumps j)
    ∧ (∀ (nm : String) (items : List PyJson),
        cgCleanData (mkSmartGroup nm items) = Except.ok (mkSmartGroupCleaned nm))
    ∧ (∀ (nm : String) (items1 items2 : List PyJson)
        (pairs1 pairs2 : List (Int × PyJson)),
        cgSimplify items1 = Except.ok pairs1 →
        cgSimplify items2 = Except.ok pairs2 →
        pairs1.Perm pairs2 →
        cgCanon (mkStaticGroup nm items1) = cgCanon (mkStaticGroup nm items2)) := by
  refine ⟨fun j => rfl, cgCleanData_smart, ?_⟩
  intro nm items1 items2 pairs1 pairs2 hp1 hp2 hperm
  unfold cgCanon
  rw [cgCleanData_static, cgCleanData_static, hp1, hp2]
  simp only [Except.map]
  unfold mkStaticGroupCleaned
  rw [mergeSort_keyed_perm pairs1 pairs2 hperm (cgSimplify_pairs items1 pairs1 hp1)]

/-- C7 witness: the three parts of the claim theorem applied at concrete
inputs, the static groups listing the same two members in opposite
orders with a volatile extra field on one copy. -/
theorem C7_canonical_content_witness :
    categoriesCanon (PyJson.obj []) = pyDumps (PyJson.obj [])
    ∧ cgCleanData (mkSmartGroup ("g") [PyJson.num 7])
        = Except.ok (mkSmartGroupCleaned ("g"))
    ∧ cgCanon (mkStaticGroup ("g")
        [PyJson.obj [(("id"), PyJson.num 2), (("age"), PyJson.num 9)],
         PyJson.obj [(("id"), PyJson.num 1)]])
      = cgCanon (mkStaticGroup ("g")
        [PyJson.obj [(("id"), PyJson.num 1)],
         PyJson.obj [(("id"), PyJson.num 2), (("age"), PyJson.num 8)]]) :=
  ⟨C7_canonical_content.1 (PyJson.obj []),
   C7_canonical_content.2.1 ("g") [PyJson.num 7],
   C7_canonical_content.2.2 ("g")
     [PyJson.obj [(("id"), PyJson.num 2), (("age"), PyJson.num 9)],
      PyJson.obj [(("id"), PyJson.num 1)]]
     [PyJson.obj [(("id"), PyJson.num 1)],
      PyJson.obj [(("id"), PyJson.num 2), (("age"), PyJson.num 8)]]
     [(2, PyJson.obj [(("id"), PyJson.num 2)]),
      (1, PyJson.obj [(("id"), PyJson.num 1)])]
     [(1, PyJson.obj [(("id"), PyJson.num 1)]),
      (2, PyJson.obj [(("id"), PyJson.num 2)])]
     rfl rfl
     (List.Perm.swap (1, PyJson.obj [(("id"), PyJson.num 1)])
       (2, PyJson.obj [(("id"), PyJson.num 2)]) [])⟩

/-- C7 counterexample: the claimed stable key ordering and redaction do
not hold for categories.  json.dumps is called with sort\_keys False
(categories.py line 46), so two parses of the same unordered object with
keys in a different response order serialize to different bytes; and
categories.clean\_data is the identity (line 116), so a volatile
timestamp field survives into the canonical content. -/
theorem C7_counterexample :
    categoriesCanon (PyJson.obj [(("id"), PyJson.num 1),
        (("name"), PyJson.str ("A"))])
      ≠ categoriesCanon (PyJson.obj [(("name"), PyJson.str ("A")),
        (("id"), PyJson.num 1)])
    ∧ categoriesCleanData (PyJson.obj [(("last_modified"),
        PyJson.str ("2024-01-01T00:00:00Z"))])
      = PyJson.obj [(("last_modified"), PyJson.str ("2024-01-01T00:00:00Z"))] :=
  ⟨by decide, rfl⟩

end ClaimsJson

end JamfMonitor
